import Mathlib

/-!
Verification development for the arcade defense simulation in
`src/components/Game.tsx`.

The mutable React refs of the component are collected into one state record
`GameS`; the per-frame `update`, the tap handler `handleInput`, the reset
`initGame`, the wave transition `nextWave` and the UI buttons become pure
functions on that record.  Conventions of the shallow embedding:

* JS numbers are modelled exactly as fractions `Qv` (an `Int` numerator over
  a `Nat` denominator, compared by cross-multiplication; every number the
  game ever computes is rational) or as `Int` where the source only ever
  stores integers (score, ammo).
* `distance(p, q) < r` compares a square root against `r`; since
  `Real.sqrt s < r ↔ 0 < r ∧ s < r ^ 2` for `0 ≤ s`, it is embedded exactly
  as the decidable comparison `distLt` on squared distances, keeping every
  definition executable.
* `Math.random()` and the trigonometric components `cos θ`, `sin θ` of spawn
  and aim angles are non-deterministic/transcendental inputs: each frame and
  each tap receives an oracle stream `Nat → Qv` consumed in program order
  (`RS.draw`), the cos/sin of an angle being two consecutive draws.
* `setTimeout(f, 2000)` calls that defer a state change are modelled by a
  `pending` queue of target states; a separate `Act.timerFire` action pops
  and applies the head.  The source stores no timeout id and never cancels,
  so nothing in the model cancels either.
* Reading `array[i]` out of range (impossible in states reachable from the
  component's initial state, where there are always 3 towers and 6 cities)
  is modelled totally by `List.getD` with an inert default.
-/

/-- Exact fraction: `num / den`.  Denominators stay positive under every
operation the model uses (`Qv.Wf`); no gcd normalisation is performed, so
all arithmetic is plain `Int`/`Nat` arithmetic and evaluates by reduction. -/
structure Qv where
  num : Int
  den : Nat
deriving DecidableEq

instance (n : Nat) : OfNat Qv n := ⟨⟨Int.ofNat n, 1⟩⟩

instance : Add Qv :=
  ⟨fun a b => ⟨a.num * b.den + b.num * a.den, a.den * b.den⟩⟩

instance : Sub Qv :=
  ⟨fun a b => ⟨a.num * b.den - b.num * a.den, a.den * b.den⟩⟩

instance : Mul Qv := ⟨fun a b => ⟨a.num * b.num, a.den * b.den⟩⟩

instance : Neg Qv := ⟨fun a => ⟨-a.num, a.den⟩⟩

/-- Division; only ever used with a divisor of known sign in the model. -/
instance : Div Qv :=
  ⟨fun a b =>
    if 0 ≤ b.num then ⟨a.num * b.den, a.den * b.num.toNat⟩
    else ⟨-(a.num * b.den), a.den * (-b.num).toNat⟩⟩

instance : LE Qv := ⟨fun a b => a.num * (b.den : Int) ≤ b.num * (a.den : Int)⟩

instance : LT Qv := ⟨fun a b => a.num * (b.den : Int) < b.num * (a.den : Int)⟩

instance (a b : Qv) : Decidable (a ≤ b) :=
  inferInstanceAs (Decidable (a.num * (b.den : Int) ≤ b.num * (a.den : Int)))

instance (a b : Qv) : Decidable (a < b) :=
  inferInstanceAs (Decidable (a.num * (b.den : Int) < b.num * (a.den : Int)))

/-- `Math.max`. -/
def qmax (a b : Qv) : Qv := if a ≤ b then b else a

/-- `Math.min`. -/
def qmin (a b : Qv) : Qv := if a ≤ b then a else b

/-- `Math.floor`, for a fraction with positive denominator. -/
def qfloor (a : Qv) : Int := a.num.fdiv (a.den : Int)

/-- Well-formed fraction: positive denominator.  All fractions the game
builds from literals are well-formed. -/
def Qv.Wf (a : Qv) : Prop := 0 < a.den

/-- Rational-value equality of fractions (the equality the spec's numbers
carry; structural `=` on `Qv` is finer). -/
def Qv.eqv (a b : Qv) : Prop := a.num * (b.den : Int) = b.num * (a.den : Int)

theorem Qv.wf_ofNat (n : Nat) : Qv.Wf (OfNat.ofNat n) := Nat.one_pos

theorem Qv.wf_add {a b : Qv} (ha : a.Wf) (hb : b.Wf) : (a + b).Wf :=
  Nat.mul_pos ha hb

theorem Qv.wf_sub {a b : Qv} (ha : a.Wf) (hb : b.Wf) : (a - b).Wf :=
  Nat.mul_pos ha hb

theorem Qv.wf_mul {a b : Qv} (ha : a.Wf) (hb : b.Wf) : (a * b).Wf :=
  Nat.mul_pos ha hb

theorem Qv.wf_neg {a : Qv} (ha : a.Wf) : (-a).Wf := ha

/-- On well-formed fractions `<` is trichotomous with `≤` reversed. -/
theorem Qv.le_of_not_lt {a b : Qv} (h : ¬ a < b) : b ≤ a := Int.not_lt.mp h

theorem Qv.le_of_lt {a b : Qv} (h : a < b) : a ≤ b := Int.le_of_lt h

/-- Transitivity of `≤`, which needs the middle denominator positive. -/
theorem Qv.le_trans {a b c : Qv} (hb : b.Wf) (h1 : a ≤ b) (h2 : b ≤ c) :
    a ≤ c := by
  have hbz : (0 : Int) < (b.den : Int) := Int.ofNat_pos.mpr hb
  have h1n : a.num * (b.den : Int) ≤ b.num * (a.den : Int) := h1
  have h2n : b.num * (c.den : Int) ≤ c.num * (b.den : Int) := h2
  have h1' := Int.mul_le_mul_of_nonneg_right h1n (Int.ofNat_nonneg c.den)
  have h2' := Int.mul_le_mul_of_nonneg_right h2n (Int.ofNat_nonneg a.den)
  show a.num * (c.den : Int) ≤ c.num * (a.den : Int)
  nlinarith

/-- 2D point, the `Point` interface. -/
structure Pt where
  x : Qv
  y : Qv
deriving DecidableEq

/-- The `Enemy` interface (incoming projectile). -/
structure Enemy where
  id : Qv
  x : Qv
  y : Qv
  vx : Qv
  vy : Qv
  color : String
  dead : Bool
  targetIndex : Nat
  speed : Qv
  trail : List Pt
deriving DecidableEq

/-- The `Interceptor` interface (player-fired missile). -/
structure Interceptor where
  id : Qv
  x : Qv
  y : Qv
  vx : Qv
  vy : Qv
  color : String
  dead : Bool
  target : Pt
  speed : Qv
  trail : List Pt
  originTowerIndex : Nat
deriving DecidableEq

/-- The `Explosion` interface (blast). -/
structure Explosion where
  id : Qv
  x : Qv
  y : Qv
  radius : Qv
  maxRadius : Qv
  growthRate : Qv
  life : Qv
  color : String
deriving DecidableEq

/-- The `Particle` interface (cosmetic debris). -/
structure Particle where
  id : Qv
  x : Qv
  y : Qv
  vx : Qv
  vy : Qv
  life : Qv
  maxLife : Qv
  color : String
  dead : Bool
  size : Qv
deriving DecidableEq

/-- The `FloatingText` interface (score popup). -/
structure FloatingText where
  id : Qv
  x : Qv
  y : Qv
  text : String
  life : Qv
  color : String
  vy : Qv
deriving DecidableEq

/-- The `Tower` interface. -/
structure Tower where
  x : Qv
  y : Qv
  ammo : Int
  maxAmmo : Int
  alive : Bool
deriving DecidableEq

/-- The `City` interface. -/
structure City where
  x : Qv
  y : Qv
  alive : Bool
deriving DecidableEq

/-- The `GameState` union.  The source's type alias omits `'PAUSED'`, but the
pause button assigns that value at runtime, so the runtime state space
includes it. -/
inductive GState where
  | MENU
  | PLAYING
  | PAUSED
  | WAVE_COMPLETE
  | GAME_OVER
  | VICTORY
deriving DecidableEq

/-- All mutable refs of the component gathered into one record. -/
structure GameS where
  score : Int
  wave : Nat
  towers : List Tower
  cities : List City
  enemies : List Enemy
  interceptors : List Interceptor
  explosions : List Explosion
  particles : List Particle
  floatingTexts : List FloatingText
  lastTime : Qv
  spawnTimer : Qv
  isWaveClearing : Bool
  isEndlessMode : Bool
  state : GState
  pending : List GState
  waveBonus : Int
deriving DecidableEq

/-- Oracle stream with a cursor: successive `Math.random()` results (and the
cos/sin pairs of computed angles) in the order the source consumes them. -/
structure RS where
  f : Nat → Qv
  c : Nat

/-- Consume one oracle value. -/
def RS.draw (r : RS) : Qv × RS := (r.f r.c, ⟨r.f, r.c + 1⟩)

/-- COLORS.primary. -/
def colPrimary : String := "#00f3ff"

/-- COLORS.secondary. -/
def colSecondary : String := "#ff00ff"

/-- COLORS.danger. -/
def colDanger : String := "#ff2a2a"

/-- COLORS.warning. -/
def colWarning : String := "#ffaa00"

/-- COLORS.success. -/
def colSuccess : String := "#00ff66"

/-- Inert default tower for out-of-range reads (dead, no ammo). -/
def noTower : Tower := ⟨0, 0, 0, 0, false⟩

/-- Inert default city for out-of-range reads (dead). -/
def noCity : City := ⟨0, 0, false⟩

/-- Inert default point. -/
def noPt : Pt := ⟨0, 0⟩

/-- Inert default interceptor. -/
def noI : Interceptor := ⟨0, 0, 0, 0, 0, "", false, ⟨0, 0⟩, 0, [], 0⟩

/-- Squared Euclidean distance, radicand of the helper `distance`. -/
def sqD (p q : Pt) : Qv := (q.x - p.x) * (q.x - p.x) + (q.y - p.y) * (q.y - p.y)

/-- Exact embedding of `distance(p, q) < r`: for a nonnegative radicand `s`,
`Real.sqrt s < r ↔ 0 < r ∧ s < r ^ 2`. -/
def distLt (p q : Pt) (r : Qv) : Bool :=
  decide ((0 : Qv) < r) && decide (sqD p q < r * r)

/-- Apply `f` at index `i`, identity out of range (array element mutation). -/
def listModify {α : Type} (l : List α) (i : Nat) (f : α → α) : List α :=
  match l, i with
  | [], _ => []
  | a :: t, 0 => f a :: t
  | a :: t, n + 1 => a :: listModify t n f

/-- `spawnExplosion(x, y, color)`: push a fresh blast
(radius 0, maxRadius 60, growthRate 4, life 1). -/
def spawnExplosion (idv x y : Qv) (color : String) (l : List Explosion) :
    List Explosion :=
  l ++ [⟨idv, x, y, 0, 60, 4, 1, color⟩]

/-- One debris particle of `spawnParticles`: draws stand for cos/sin of the
random angle, the `randomRange(1,4)` speed sample, the id, and the
`randomRange(1,3)` size sample, in source order. -/
def mkParticle (x y : Qv) (color : String) (rs : RS) : Particle × RS :=
  let d0 := rs.draw
  let d1 := d0.2.draw
  let d2 := d1.2.draw
  let speed := d2.1 * 3 + 1
  let d3 := d2.2.draw
  let d4 := d3.2.draw
  (⟨d3.1, x, y, d0.1 * speed, d1.1 * speed, 1, 1, color, false, d4.1 * 2 + 1⟩,
    d4.2)

/-- `spawnParticles(x, y, count, color)`. -/
def spawnParticles (x y : Qv) (count : Nat) (color : String)
    (l : List Particle) (rs : RS) : List Particle × RS :=
  match count with
  | 0 => (l, rs)
  | n + 1 =>
    let p := mkParticle x y color rs
    spawnParticles x y n color (l ++ [p.1]) p.2

/-- `addScore(amount, x, y)`: bump the score and push a `+amount` popup. -/
def addScore (amount : Int) (x y idv : Qv) (s : GameS) : GameS :=
  { s with
    score := s.score + amount,
    floatingTexts :=
      s.floatingTexts ++ [⟨idv, x, y, "+" ++ toString amount, 1, colSuccess, -1⟩] }

/-- The three tower positions; `update` computes
`towerY = (height - 40) - 20` and `handleInput` computes `height - 60`,
the same ordinates. -/
def towerPositions (w h : Qv) : List Pt :=
  [⟨w * (1 / 10), h - 60⟩, ⟨w * (5 / 10), h - 60⟩, ⟨w * (9 / 10), h - 60⟩]

/-- The six city positions, at `cityY = (height - 40) - 10`. -/
def cityPositions (w h : Qv) : List Pt :=
  [⟨w * (2 / 10), h - 50⟩, ⟨w * (3 / 10), h - 50⟩, ⟨w * (4 / 10), h - 50⟩,
   ⟨w * (6 / 10), h - 50⟩, ⟨w * (7 / 10), h - 50⟩, ⟨w * (8 / 10), h - 50⟩]

/-- `spawnRate = Math.max(500, 2000 - wave * 150)`. -/
def spawnRate (wave : Nat) : Qv := qmax 500 (2000 - ⟨Int.ofNat wave, 1⟩ * 150)

/-- `speedBase = 1 + wave * 0.2`. -/
def speedBase (wave : Nat) : Qv := 1 + ⟨Int.ofNat wave, 1⟩ * (2 / 10)

/-- Push a point on a bounded trail: append, then one `shift()` once the
length exceeds `cap`. -/
def trailPush (cap : Nat) (tr : List Pt) (p : Pt) : List Pt :=
  let tr2 := tr ++ [p]
  if decide (cap < tr2.length) then tr2.tail else tr2

/-- The `--- Spawning Enemies ---` block of `update`: when not wave-clearing
and the spawn interval has elapsed, reset the spawn timer and, if any
structure is alive, push one enemy aimed at a uniformly chosen alive
structure.  Oracle draws in order: target pick, start x, cos/sin of the aim
angle, id.  The target coordinates looked up from `cityPositions`/
`towerPositions` feed only `Math.atan2`, whose cos/sin the oracle supplies,
so the height argument is otherwise unread. -/
def spawnPhase (w _h time : Qv) (s : GameS) (rs : RS) : GameS × RS :=
  if s.isWaveClearing then (s, rs)
  else if decide (spawnRate s.wave < time - s.spawnTimer) then
    let s1 := { s with spawnTimer := time }
    let aliveCities : List Nat :=
      s1.cities.enum.filterMap fun p => if p.2.alive then some p.1 else none
    let aliveTowers : List Nat :=
      s1.towers.enum.filterMap fun p => if p.2.alive then some (p.1 + 6) else none
    let possible := aliveCities ++ aliveTowers
    if decide (0 < possible.length) then
      let d0 := rs.draw
      let idx := (qfloor (d0.1 * ⟨Int.ofNat possible.length, 1⟩)).toNat % possible.length
      let targetIdx := possible.getD idx 0
      let d1 := d0.2.draw
      let startX := d1.1 * w
      let d2 := d1.2.draw
      let d3 := d2.2.draw
      let d4 := d3.2.draw
      let en : Enemy :=
        ⟨d4.1, startX, -20, d2.1 * speedBase s1.wave, d3.1 * speedBase s1.wave,
          colDanger, false, targetIdx, speedBase s1.wave, []⟩
      ({ s1 with enemies := s1.enemies ++ [en] }, d4.2)
    else (s1, rs)
  else (s, rs)

/-- `if (score >= targetScore && !isWaveClearing) isWaveClearing = true`,
with `targetScore = wave * 200`. -/
def clearFlagPhase (s : GameS) : GameS :=
  if decide ((s.wave : Int) * 200 ≤ s.score) && !s.isWaveClearing then
    { s with isWaveClearing := true }
  else s

/-- End-of-wave ammo bonus: sum of `ammo * 5` over alive towers. -/
def waveBonusOf (towers : List Tower) : Int :=
  towers.foldl (fun b t => if t.alive then b + t.ammo * 5 else b) 0

/-- The wave-clear settlement: when clearing and both the enemy and blast
collections are empty, record and add the ammo bonus, schedule the deferred
transition (VICTORY when the post-bonus score is ≥ 1000, the state is not
already VICTORY and endless mode is off, else WAVE_COMPLETE), and drop the
clearing flag. -/
def settlePhase (w h : Qv) (s : GameS) (rs : RS) : GameS × RS :=
  if s.isWaveClearing && s.enemies.isEmpty && s.explosions.isEmpty then
    let bonus := waveBonusOf s.towers
    let s1 := { s with waveBonus := bonus }
    let d0 := rs.draw
    let s2 := addScore bonus (w / 2) (h / 2) d0.1 s1
    let tgt :=
      if decide (1000 ≤ s2.score) && decide (s2.state ≠ GState.VICTORY) &&
          !s2.isEndlessMode then
        GState.VICTORY
      else GState.WAVE_COMPLETE
    ({ s2 with pending := s2.pending ++ [tgt], isWaveClearing := false }, d0.2)
  else (s, rs)

/-- Advance one interceptor: move by its velocity, push the bounded trail,
and on arrival (distance to the fixed target below its speed) mark it dead
and spawn a blast at the target point. -/
def stepInterceptor (acc : GameS × RS) (p : Interceptor) : GameS × RS :=
  let s := acc.1
  let p1 := { p with x := p.x + p.vx, y := p.y + p.vy }
  let p2 := { p1 with trail := trailPush 10 p1.trail ⟨p1.x, p1.y⟩ }
  if distLt ⟨p2.x, p2.y⟩ p2.target p2.speed then
    let p3 := { p2 with dead := true }
    let d0 := acc.2.draw
    ({ s with
        interceptors := s.interceptors ++ [p3],
        explosions :=
          spawnExplosion d0.1 p3.target.x p3.target.y colPrimary s.explosions },
      d0.2)
  else ({ s with interceptors := s.interceptors ++ [p2] }, acc.2)

/-- The interceptor `forEach` of `update`. -/
def interPhase (s : GameS) (rs : RS) : GameS × RS :=
  s.interceptors.foldl stepInterceptor ({ s with interceptors := [] }, rs)

/-- The explosion `forEach`: grow until `maxRadius`, then decay life by 0.05. -/
def growPhase (s : GameS) : GameS :=
  { s with
    explosions := s.explosions.map fun e =>
      if decide (e.radius < e.maxRadius) then
        { e with radius := e.radius + e.growthRate }
      else { e with life := e.life - 5 / 100 } }

/-- Structure damage of a ground impact, keyed by the enemy's target index:
a live targeted city dies (and, if that leaves every city dead, the state
becomes GAME_OVER); a live targeted tower dies and loses all ammo. -/
def resolveImpact (e : Enemy) (s : GameS) : GameS :=
  if decide (e.targetIndex < 6) then
    if (s.cities.getD e.targetIndex noCity).alive then
      let cities := listModify s.cities e.targetIndex fun c => { c with alive := false }
      let s1 := { s with cities := cities }
      if cities.all (fun c => !c.alive) then { s1 with state := GState.GAME_OVER }
      else s1
    else s
  else
    if (s.towers.getD (e.targetIndex - 6) noTower).alive then
      { s with
        towers :=
          listModify s.towers (e.targetIndex - 6) fun t =>
            { t with alive := false, ammo := 0 } }
    else s

/-- Advance one enemy: move, push the bounded trail, then test against the
blast list in collection order (first match kills: +20 score, 10 debris
particles, a secondary blast at the enemy's position); only an enemy not
killed by a blast is tested for ground contact (`y ≥ groundY - 5`), which
kills it, spawns an impact blast and 15 particles, and resolves structure
damage. -/
def stepEnemy (groundY : Qv) (acc : GameS × RS) (e : Enemy) : GameS × RS :=
  let s := acc.1
  let e1 := { e with x := e.x + e.vx, y := e.y + e.vy }
  let e2 := { e1 with trail := trailPush 15 e1.trail ⟨e1.x, e1.y⟩ }
  match s.explosions.find? (fun exp => distLt ⟨e2.x, e2.y⟩ ⟨exp.x, exp.y⟩ exp.radius) with
  | some _ =>
    let e3 := { e2 with dead := true }
    let d0 := acc.2.draw
    let s1 := addScore 20 e3.x e3.y d0.1 s
    let pp := spawnParticles e3.x e3.y 10 colDanger s1.particles d0.2
    let d1 := pp.2.draw
    let s2 :=
      { s1 with
        particles := pp.1,
        explosions := spawnExplosion d1.1 e3.x e3.y colSecondary s1.explosions }
    ({ s2 with enemies := s2.enemies ++ [e3] }, d1.2)
  | none =>
    if decide (groundY - 5 ≤ e2.y) then
      let e3 := { e2 with dead := true }
      let d0 := acc.2.draw
      let s1 :=
        { s with explosions := spawnExplosion d0.1 e3.x e3.y colWarning s.explosions }
      let pp := spawnParticles e3.x e3.y 15 colWarning s1.particles d0.2
      let s2 := resolveImpact e3 { s1 with particles := pp.1 }
      ({ s2 with enemies := s2.enemies ++ [e3] }, pp.2)
    else ({ s with enemies := s.enemies ++ [e2] }, acc.2)

/-- The enemy `forEach` of `update` (later enemies see the blasts spawned by
earlier ones in the same pass, at radius 0). -/
def enemyPhase (groundY : Qv) (s : GameS) (rs : RS) : GameS × RS :=
  s.enemies.foldl (stepEnemy groundY) ({ s with enemies := [] }, rs)

/-- The particle `forEach`: drift and decay by 0.02, tombstone at life ≤ 0. -/
def particlePhase (s : GameS) : GameS :=
  { s with
    particles := s.particles.map fun p =>
      let p1 := { p with x := p.x + p.vx, y := p.y + p.vy, life := p.life - 2 / 100 }
      if decide (p1.life ≤ 0) then { p1 with dead := true } else p1 }

/-- The floating-text `forEach`: drift and decay by 0.015. -/
def floatPhase (s : GameS) : GameS :=
  { s with
    floatingTexts := s.floatingTexts.map fun t =>
      { t with y := t.y + t.vy, life := t.life - 15 / 1000 } }

/-- The `Cleanup Dead Entities` block. -/
def cullPhase (s : GameS) : GameS :=
  { s with
    interceptors := s.interceptors.filter fun p => !p.dead,
    enemies := s.enemies.filter fun e => !e.dead,
    explosions := s.explosions.filter fun e => decide ((0 : Qv) < e.life),
    particles := s.particles.filter fun p => !p.dead,
    floatingTexts := s.floatingTexts.filter fun t => decide ((0 : Qv) < t.life) }

/-- `const safeDt = Math.min(dt, 50)` — the clamp of the raw frame delta. -/
def safeDtOf (dt : Qv) : Qv := qmin dt 50

/-- The game-logic part of a frame (the `if (!isPaused) { ... }` block):
spawning, wave-clear check and settlement, interceptor/blast/enemy/particle/
popup passes, and the cull. -/
def tickLogic (w h time : Qv) (rng : Nat → Qv) (s1 : GameS) : GameS :=
  let a := spawnPhase w h time s1 ⟨rng, 0⟩
  let s2 := clearFlagPhase a.1
  let b := settlePhase w h s2 a.2
  let c := interPhase b.1 b.2
  let s3 := growPhase c.1
  let d := enemyPhase (h - 40) s3 c.2
  cullPhase (floatPhase (particlePhase d.1))

/-- One frame of the loop body `update(time)`.  The raw delta is derived and
clamped exactly as in the source; the source never reads `safeDt` afterwards,
so neither does anything below.  `lastTime` is refreshed unconditionally;
every game-logic mutation is guarded by `state = PLAYING` (the `isPaused`
guard).  Drawing is omitted (it writes no game state). -/
def update (w h time : Qv) (rng : Nat → Qv) (s : GameS) : GameS :=
  let _sdt := safeDtOf (time - s.lastTime)
  let s1 := { s with lastTime := time }
  if s1.state ≠ GState.PLAYING then s1
  else tickLogic w h time rng s1

/-- Selection step of `handleInput`'s tower loop: keep the index when the
squared distance beats the running minimum (`Infinity` = `none`) and the
tower is alive with ammo. -/
def selStep (towers : List Tower) (tap : Pt) (acc : Option Qv × Option Nat)
    (pi : Pt × Nat) : Option Qv × Option Nat :=
  let d2 := sqD pi.1 tap
  let better : Bool :=
    match acc.1 with
    | none => true
    | some m => decide (d2 < m)
  let t := towers.getD pi.2 noTower
  if better && t.alive && decide (0 < t.ammo) then (some d2, some pi.2) else acc

/-- `handleInput(clientX, clientY)`: only while PLAYING, pick the nearest
alive tower with ammo; on success push one interceptor (fixed speed 15,
fixed target = tap point) and decrement that tower's ammo.  Oracle draws:
cos/sin of the launch angle, id. -/
def handleInput (w h cx cy : Qv) (rng : Nat → Qv) (s : GameS) : GameS :=
  if s.state ≠ GState.PLAYING then s
  else
    let tap : Pt := ⟨cx, cy⟩
    let sel := ((towerPositions w h).zip [0, 1, 2]).foldl (selStep s.towers tap) (none, none)
    match sel.2 with
    | none => s
    | some i =>
      let tPos := (towerPositions w h).getD i noPt
      let newI : Interceptor :=
        ⟨rng 2, tPos.x, tPos.y, rng 0 * 15, rng 1 * 15, colPrimary, false, tap, 15, [], i⟩
      { s with
        interceptors := s.interceptors ++ [newI],
        towers := listModify s.towers i fun t => { t with ammo := t.ammo - 1 } }

/-- The tower array of `initGame` and of the component's initial render. -/
def initialTowers : List Tower :=
  [⟨0, 0, 20, 20, true⟩, ⟨0, 0, 40, 40, true⟩, ⟨0, 0, 20, 20, true⟩]

/-- The city array of `initGame` and of the component's initial render. -/
def initialCities : List City := List.replicate 6 ⟨0, 0, true⟩

/-- `initGame()`: full reset to the start baseline and transition to PLAYING.
Faithful to the source, it does NOT touch `spawnTimer`, `waveBonus` or the
already scheduled deferred transitions (`pending`). -/
def initGame (now : Qv) (s : GameS) : GameS :=
  { s with
    score := 0,
    wave := 1,
    isEndlessMode := false,
    towers := initialTowers,
    cities := initialCities,
    enemies := [],
    interceptors := [],
    explosions := [],
    particles := [],
    floatingTexts := [],
    isWaveClearing := false,
    state := GState.PLAYING,
    lastTime := now }

/-- `nextWave()`: repair and refill every tower, increment the wave counter,
drop the clearing flag, resume PLAYING.  Cities are untouched. -/
def nextWave (now : Qv) (s : GameS) : GameS :=
  { s with
    towers := s.towers.map fun t => { t with alive := true, ammo := t.maxAmmo },
    wave := s.wave + 1,
    isWaveClearing := false,
    state := GState.PLAYING,
    lastTime := now }

/-- The component's initial state (the `useState`/`useRef` initialisers). -/
def initState : GameS :=
  { score := 0, wave := 1, towers := initialTowers, cities := initialCities,
    enemies := [], interceptors := [], explosions := [], particles := [],
    floatingTexts := [], lastTime := 0, spawnTimer := 0,
    isWaveClearing := false, isEndlessMode := false, state := GState.MENU,
    pending := [], waveBonus := 0 }

/-- The external events the component reacts to.  Buttons exist only while
their overlay is rendered, which is encoded as the state guard in `step`. -/
inductive Act where
  | tick (w h time : Qv) (rng : Nat → Qv)
  | input (w h cx cy : Qv) (rng : Nat → Qv)
  | startBtn (now : Qv)
  | pauseBtn
  | resumeBtn
  | quitBtn
  | nextWaveBtn (now : Qv)
  | endlessBtn (now : Qv)
  | timerFire

/-- The transition function: one event applied to the state.
`startBtn` is the start/restart button (MENU, GAME_OVER and VICTORY overlays);
`pauseBtn` the HUD toggle; `resumeBtn`/`quitBtn` the PAUSED overlay;
`nextWaveBtn` the WAVE_COMPLETE overlay; `endlessBtn` the VICTORY overlay's
endless continuation; `timerFire` a scheduled `setTimeout` callback firing
(unconditional in the source). -/
def step (a : Act) (s : GameS) : GameS :=
  match a with
  | .tick w h time rng => update w h time rng s
  | .input w h cx cy rng => handleInput w h cx cy rng s
  | .startBtn now =>
    if s.state = GState.MENU ∨ s.state = GState.GAME_OVER ∨ s.state = GState.VICTORY then
      initGame now s
    else s
  | .pauseBtn =>
    if s.state = GState.PLAYING then { s with state := GState.PAUSED }
    else if s.state = GState.PAUSED then { s with state := GState.PLAYING }
    else s
  | .resumeBtn =>
    if s.state = GState.PAUSED then { s with state := GState.PLAYING } else s
  | .quitBtn =>
    if s.state = GState.PAUSED then { s with state := GState.MENU } else s
  | .nextWaveBtn now =>
    if s.state = GState.WAVE_COMPLETE then nextWave now s else s
  | .endlessBtn now =>
    if s.state = GState.VICTORY then
      nextWave now { s with state := GState.PLAYING, isEndlessMode := true }
    else s
  | .timerFire =>
    match s.pending with
    | [] => s
    | t :: rest => { s with state := t, pending := rest }

/-- States reachable from the component's initial state. -/
inductive Reachable : GameS → Prop where
  | init : Reachable initState
  | step : ∀ {s : GameS} (a : Act), Reachable s → Reachable (step a s)

/-! ### Concrete scenarios -/

/-- The all-zero oracle stream. -/
def oZero : Nat → Qv := fun _ => 0

/-- Wave 3, score exactly at the 600 target, no enemies or blasts in flight,
towers alive with 10 and 0 ammo (third destroyed): the spec's wave-bonus
scenario. -/
def bonusS : GameS :=
  { score := 600, wave := 3,
    towers := [⟨0, 0, 10, 20, true⟩, ⟨0, 0, 0, 40, true⟩, ⟨0, 0, 0, 20, false⟩],
    cities := initialCities, enemies := [], interceptors := [], explosions := [],
    particles := [], floatingTexts := [], lastTime := 0, spawnTimer := 0,
    isWaveClearing := false, isEndlessMode := false, state := GState.PLAYING,
    pending := [], waveBonus := 0 }

/-- First frame after reaching the target score (no spawn: only 100ms since
the last one). -/
def bonusT1 : Act := Act.tick 1000 1000 100 oZero

/-- The following frame. -/
def bonusT2 : Act := Act.tick 1000 1000 200 oZero

/-- One settlement frame applied to `bonusS`. -/
def bonusRun1 : GameS := step bonusT1 bonusS

/-- Two settlement frames applied to `bonusS`. -/
def bonusRun2 : GameS := step bonusT2 bonusRun1

/-- `bonusRun1` after pausing, quitting to the menu and restarting, all
within the 2-second grace period, so the deferred transition scheduled by
the settlement is still pending. -/
def staleRun : GameS :=
  step (Act.startBtn 500) (step Act.quitBtn (step Act.pauseBtn bonusRun1))

/-- `staleRun` when the stale scheduled callback finally fires. -/
def staleFired : GameS := step Act.timerFire staleRun

/-- Chain-kill scenario: one interceptor one step from its target at the
origin, enemy A hovering 40 away, enemy B 90 from the origin but only 50
from A (all with zero velocity, far above the ground). -/
def chainS : GameS :=
  { score := 0, wave := 1, towers := initialTowers, cities := initialCities,
    enemies := [⟨1, 40, 0, 0, 0, colDanger, false, 0, 1, []⟩,
                ⟨2, 90, 0, 0, 0, colDanger, false, 1, 1, []⟩],
    interceptors := [⟨3, 0, 15, 0, -15, colPrimary, false, ⟨0, 0⟩, 15, [], 0⟩],
    explosions := [], particles := [], floatingTexts := [], lastTime := 0,
    spawnTimer := 0, isWaveClearing := false, isEndlessMode := false,
    state := GState.PLAYING, pending := [], waveBonus := 0 }

/-- A frame at time 1 (too early for any enemy spawn). -/
def chainT : Act := Act.tick 1000 1000 1 oZero

/-- `n` frames of the chain-kill scenario. -/
def chainN : Nat → GameS
  | 0 => chainS
  | n + 1 => step chainT (chainN n)

/-- One interceptor at the origin, flying right, target far away:
scenario for delta-(in)dependence of displacement. -/
def deltaS : GameS :=
  { score := 0, wave := 1, towers := initialTowers, cities := initialCities,
    enemies := [],
    interceptors := [⟨7, 0, 0, 15, 0, colPrimary, false, ⟨1000, 0⟩, 15, [], 0⟩],
    explosions := [], particles := [], floatingTexts := [], lastTime := 0,
    spawnTimer := 0, isWaveClearing := false, isEndlessMode := false,
    state := GState.PLAYING, pending := [], waveBonus := 0 }

/-- Horizontal displacement of the interceptor of `deltaS` over one frame
whose raw delta is `t` (the state's `lastTime` is 0). -/
def dispDelta (t : Qv) : Qv :=
  ((step (Act.tick 1000 1000 t oZero) deltaS).interceptors.getD 0 noI).x - 0

/-- Tick `k` of the defeat run: a tiny canvas (`height = 10` puts the spawn
row below the ground line) makes every spawned enemy a ground impact on its
spawn frame; the oracle aims each spawn at the first alive structure and
spaces the start abscissas 100 apart so no impact blast ever reaches the
next enemy. -/
def defeatA (k : Nat) : Act :=
  Act.tick 100 10 (⟨Int.ofNat k, 1⟩ * 2000) fun n =>
    if n = 1 then ⟨Int.ofNat k, 1⟩ else 0

/-- Start of the defeat run: press start on the menu. -/
def defeatR1 : GameS := step (Act.startBtn 0) initState

/-- Defeat run after two cities were lost. -/
def defeatR3 : GameS := step (defeatA 2) (step (defeatA 1) defeatR1)

/-- Defeat run after five cities were lost. -/
def defeatR6 : GameS :=
  step (defeatA 5) (step (defeatA 4) (step (defeatA 3) defeatR3))

/-- Defeat run after the last city was lost. -/
def defeatR7 : GameS := step (defeatA 6) defeatR6

/-! ### Generic helpers -/

theorem foldlRec {α β : Type} (P : β → Prop) (f : β → α → β) :
    ∀ (l : List α) (b : β), P b → (∀ b a, P b → P (f b a)) → P (l.foldl f b) := by
  intro l
  induction l with
  | nil => intro b hb _; exact hb
  | cons a t ih => intro b hb hf; exact ih (f b a) (hf b a hb) hf

theorem listModify_length {α : Type} (l : List α) (i : Nat) (f : α → α) :
    (listModify l i f).length = l.length := by
  induction l generalizing i with
  | nil => rfl
  | cons a t ih =>
    cases i with
    | zero => rfl
    | succ n => simpa [listModify] using ih n

theorem listModify_getD {α : Type} (l : List α) (i j : Nat) (f : α → α) (d : α) :
    (listModify l i f).getD j d =
      if i = j ∧ j < l.length then f (l.getD j d) else l.getD j d := by
  induction l generalizing i j with
  | nil => simp [listModify]
  | cons a t ih =>
    cases i with
    | zero =>
      cases j with
      | zero => simp [listModify]
      | succ m => simp [listModify]
    | succ n =>
      cases j with
      | zero => simp [listModify]
      | succ m =>
        have hstep : (listModify (a :: t) (n + 1) f).getD (m + 1) d =
            (listModify t n f).getD m d := by
          simp [listModify]
        rw [hstep, ih]
        have hcond : (n = m ∧ m < t.length) ↔
            (n + 1 = m + 1 ∧ m + 1 < (a :: t).length) := by
          simp only [List.length_cons]
          omega
        by_cases hc : n = m ∧ m < t.length
        · rw [if_pos hc, if_pos (hcond.mp hc)]; simp
        · rw [if_neg hc, if_neg (fun h => hc (hcond.mpr h))]; simp

theorem all_iff_getD {α : Type} (p : α → Bool) (d : α) (l : List α) :
    l.all p = true ↔ ∀ i, i < l.length → p (l.getD i d) = true := by
  induction l with
  | nil => simp
  | cons a t ih =>
    simp only [List.all_cons, Bool.and_eq_true, ih]
    constructor
    · rintro ⟨hpa, hall⟩ i hi
      cases i with
      | zero => simpa using hpa
      | succ n => simpa using hall n (by simpa using hi)
    · intro hh
      exact ⟨by simpa using hh 0 (by simp),
        fun n hn => by simpa using hh (n + 1) (by simpa using hn)⟩

/-! ### Phase shape lemmas -/

/-- One step can leave a tower alone or destroy it (dead, ammo zeroed). -/
def TowerRel (old new : Tower) : Prop :=
  new = old ∨ new = { old with alive := false, ammo := 0 }

/-- One step can leave a city alone or destroy it. -/
def CityRel (old new : City) : Prop :=
  new = old ∨ new = { old with alive := false }

theorem spawnPhase_shape (w h t : Qv) (s : GameS) (rs : RS) :
    ∃ st en, (spawnPhase w h t s rs).1 = { s with spawnTimer := st, enemies := en } := by
  simp only [spawnPhase]
  split
  · exact ⟨_, _, rfl⟩
  · split
    · split
      · exact ⟨_, _, rfl⟩
      · exact ⟨_, _, rfl⟩
    · exact ⟨_, _, rfl⟩

theorem clearFlagPhase_shape (s : GameS) :
    ∃ b, clearFlagPhase s = { s with isWaveClearing := b } := by
  simp only [clearFlagPhase]
  split
  · exact ⟨_, rfl⟩
  · exact ⟨_, rfl⟩

theorem settlePhase_shape (w h : Qv) (s : GameS) (rs : RS) :
    ∃ sc ft wb cl tg,
      (settlePhase w h s rs).1 =
        { s with score := sc, floatingTexts := ft, waveBonus := wb,
                 isWaveClearing := cl, pending := s.pending ++ tg } ∧
      ∀ g ∈ tg, g = GState.WAVE_COMPLETE ∨ g = GState.VICTORY := by
  simp only [settlePhase]
  split
  · refine ⟨_, _, _, _, [_], rfl, ?_⟩
    intro g hg
    simp only [List.mem_singleton] at hg
    subst hg
    split
    · exact Or.inr rfl
    · exact Or.inl rfl
  · refine ⟨s.score, s.floatingTexts, s.waveBonus, s.isWaveClearing, [], ?_, by simp⟩
    rw [List.append_nil]

theorem interPhase_shape (s : GameS) (rs : RS) :
    ∃ ic ex, (interPhase s rs).1 = { s with interceptors := ic, explosions := ex } := by
  unfold interPhase
  refine foldlRec (fun x => ∃ ic ex, x.1 = { s with interceptors := ic, explosions := ex })
    stepInterceptor s.interceptors ({ s with interceptors := [] }, rs) ?_ ?_
  · exact ⟨[], s.explosions, rfl⟩
  · intro b p hb
    obtain ⟨ic, ex, hx⟩ := hb
    simp only [stepInterceptor]
    split
    · rw [hx]; exact ⟨_, _, rfl⟩
    · rw [hx]; exact ⟨_, _, rfl⟩

theorem growPhase_shape (s : GameS) :
    ∃ ex, growPhase s = { s with explosions := ex } := ⟨_, rfl⟩

theorem particlePhase_shape (s : GameS) :
    ∃ pa, particlePhase s = { s with particles := pa } := ⟨_, rfl⟩

theorem floatPhase_shape (s : GameS) :
    ∃ ft, floatPhase s = { s with floatingTexts := ft } := ⟨_, rfl⟩

theorem cullPhase_shape (s : GameS) :
    ∃ ic en ex pa ft,
      cullPhase s =
        { s with interceptors := ic, enemies := en, explosions := ex,
                 particles := pa, floatingTexts := ft } := ⟨_, _, _, _, _, rfl⟩

/-! ### Impact resolution and the enemy pass -/

theorem towerRel_refl (t : Tower) : TowerRel t t := Or.inl (Eq.refl t)

theorem towerRel_trans {a b c : Tower} (h1 : TowerRel a b) (h2 : TowerRel b c) :
    TowerRel a c := by
  rcases h1 with h1 | h1 <;> rcases h2 with h2 | h2 <;> subst h1 <;> subst h2
  · exact Or.inl rfl
  · exact Or.inr rfl
  · exact Or.inr rfl
  · exact Or.inr rfl

theorem cityRel_trans {a b c : City} (h1 : CityRel a b) (h2 : CityRel b c) :
    CityRel a c := by
  rcases h1 with h1 | h1 <;> rcases h2 with h2 | h2 <;> subst h1 <;> subst h2
  · exact Or.inl rfl
  · exact Or.inr rfl
  · exact Or.inr rfl
  · exact Or.inr rfl

theorem cityRel_all_dead {c1 c2 : List City}
    (hrel : ∀ i, CityRel (c1.getD i noCity) (c2.getD i noCity))
    (hlen : c2.length = c1.length)
    (h : c1.all (fun c => !c.alive) = true) :
    c2.all (fun c => !c.alive) = true := by
  rw [all_iff_getD _ noCity] at h ⊢
  intro i hi
  rcases hrel i with hr | hr
  · rw [hr]; exact h i (by omega)
  · rw [hr]; rfl

theorem towers_rel_listModify (l : List Tower) (k i : Nat) :
    TowerRel (l.getD i noTower)
      ((listModify l k fun t => { t with alive := false, ammo := 0 }).getD i noTower) := by
  rw [listModify_getD]
  split
  · exact Or.inr rfl
  · exact Or.inl rfl

theorem cities_rel_listModify (l : List City) (k i : Nat) :
    CityRel (l.getD i noCity)
      ((listModify l k fun c => { c with alive := false }).getD i noCity) := by
  rw [listModify_getD]
  split
  · exact Or.inr rfl
  · exact Or.inl rfl

theorem resolveImpact_shape (e : Enemy) (s : GameS) :
    ∃ ci tw st, resolveImpact e s = { s with cities := ci, towers := tw, state := st } := by
  simp only [resolveImpact]
  split
  · split
    · split
      · exact ⟨_, _, _, rfl⟩
      · exact ⟨_, _, _, rfl⟩
    · exact ⟨_, _, _, rfl⟩
  · split
    · exact ⟨_, _, _, rfl⟩
    · exact ⟨_, _, _, rfl⟩

theorem resolveImpact_frame (e : Enemy) (s : GameS) :
    (resolveImpact e s).pending = s.pending ∧ (resolveImpact e s).wave = s.wave ∧
    (resolveImpact e s).interceptors = s.interceptors ∧
    (resolveImpact e s).spawnTimer = s.spawnTimer ∧
    (resolveImpact e s).isWaveClearing = s.isWaveClearing ∧
    (resolveImpact e s).isEndlessMode = s.isEndlessMode ∧
    (resolveImpact e s).lastTime = s.lastTime ∧
    (resolveImpact e s).enemies = s.enemies ∧
    (resolveImpact e s).explosions = s.explosions ∧
    (resolveImpact e s).particles = s.particles ∧
    (resolveImpact e s).floatingTexts = s.floatingTexts ∧
    (resolveImpact e s).score = s.score ∧
    (resolveImpact e s).waveBonus = s.waveBonus := by
  obtain ⟨ci, tw, st, h⟩ := resolveImpact_shape e s
  rw [h]
  exact ⟨rfl, rfl, rfl, rfl, rfl, rfl, rfl, rfl, rfl, rfl, rfl, rfl, rfl⟩

theorem resolveImpact_towers (e : Enemy) (s : GameS) (i : Nat) :
    TowerRel (s.towers.getD i noTower) ((resolveImpact e s).towers.getD i noTower) := by
  simp only [resolveImpact]
  split
  · split
    · split
      · exact Or.inl rfl
      · exact Or.inl rfl
    · exact Or.inl rfl
  · split
    · exact towers_rel_listModify s.towers _ i
    · exact Or.inl rfl

theorem resolveImpact_towers_length (e : Enemy) (s : GameS) :
    (resolveImpact e s).towers.length = s.towers.length := by
  simp only [resolveImpact]
  split
  · split
    · split
      · rfl
      · rfl
    · rfl
  · split
    · exact listModify_length s.towers _ _
    · rfl

theorem resolveImpact_cities (e : Enemy) (s : GameS) (i : Nat) :
    CityRel (s.cities.getD i noCity) ((resolveImpact e s).cities.getD i noCity) := by
  simp only [resolveImpact]
  split
  · split
    · split
      · exact cities_rel_listModify s.cities _ i
      · exact cities_rel_listModify s.cities _ i
    · exact Or.inl rfl
  · split
    · exact Or.inl rfl
    · exact Or.inl rfl

theorem resolveImpact_cities_length (e : Enemy) (s : GameS) :
    (resolveImpact e s).cities.length = s.cities.length := by
  simp only [resolveImpact]
  split
  · split
    · split
      · exact listModify_length s.cities _ _
      · exact listModify_length s.cities _ _
    · rfl
  · split
    · rfl
    · rfl

theorem resolveImpact_state (e : Enemy) (s : GameS) :
    (resolveImpact e s).state = s.state ∨
      ((resolveImpact e s).state = GState.GAME_OVER ∧
        (resolveImpact e s).cities.all (fun c => !c.alive) = true) := by
  simp only [resolveImpact]
  split
  · split
    · split
      · rename_i hdead
        exact Or.inr ⟨rfl, hdead⟩
      · exact Or.inl rfl
    · exact Or.inl rfl
  · split
    · exact Or.inl rfl
    · exact Or.inl rfl

theorem resolveImpact_alldead_trigger (e : Enemy) (s : GameS) :
    (resolveImpact e s).cities.all (fun c => !c.alive) = true →
      (resolveImpact e s).state = GState.GAME_OVER ∨
        s.cities.all (fun c => !c.alive) = true := by
  simp only [resolveImpact]
  split
  · split
    · split
      · intro _; exact Or.inl rfl
      · rename_i hnot
        intro hh
        exact absurd hh hnot
    · intro hh; exact Or.inr hh
  · split
    · intro hh; exact Or.inr hh
    · intro hh; exact Or.inr hh

theorem resolveImpact_go_preserved (e : Enemy) (s : GameS)
    (h : s.state = GState.GAME_OVER) :
    (resolveImpact e s).state = GState.GAME_OVER := by
  rcases resolveImpact_state e s with hs | hs
  · rw [hs, h]
  · exact hs.1

theorem stepEnemy_spec (g : Qv) (acc : GameS × RS) (e : Enemy) :
    (stepEnemy g acc e).1.pending = acc.1.pending ∧
    (stepEnemy g acc e).1.wave = acc.1.wave ∧
    (stepEnemy g acc e).1.interceptors = acc.1.interceptors ∧
    (stepEnemy g acc e).1.spawnTimer = acc.1.spawnTimer ∧
    (stepEnemy g acc e).1.isWaveClearing = acc.1.isWaveClearing ∧
    (stepEnemy g acc e).1.isEndlessMode = acc.1.isEndlessMode ∧
    (stepEnemy g acc e).1.lastTime = acc.1.lastTime ∧
    (∀ i, TowerRel (acc.1.towers.getD i noTower)
      ((stepEnemy g acc e).1.towers.getD i noTower)) ∧
    (stepEnemy g acc e).1.towers.length = acc.1.towers.length ∧
    (∀ i, CityRel (acc.1.cities.getD i noCity)
      ((stepEnemy g acc e).1.cities.getD i noCity)) ∧
    (stepEnemy g acc e).1.cities.length = acc.1.cities.length ∧
    ((stepEnemy g acc e).1.state = acc.1.state ∨
      ((stepEnemy g acc e).1.state = GState.GAME_OVER ∧
        (stepEnemy g acc e).1.cities.all (fun c => !c.alive) = true)) ∧
    ((stepEnemy g acc e).1.cities.all (fun c => !c.alive) = true →
      (stepEnemy g acc e).1.state = GState.GAME_OVER ∨
        acc.1.cities.all (fun c => !c.alive) = true) ∧
    (acc.1.state = GState.GAME_OVER →
      (stepEnemy g acc e).1.state = GState.GAME_OVER) := by
  simp only [stepEnemy]
  split
  · exact ⟨rfl, rfl, rfl, rfl, rfl, rfl, rfl, fun i => Or.inl rfl, rfl,
      fun i => Or.inl rfl, rfl, Or.inl rfl, fun hh => Or.inr hh, fun h => h⟩
  · split
    · refine ⟨(resolveImpact_frame _ _).1, (resolveImpact_frame _ _).2.1,
        (resolveImpact_frame _ _).2.2.1, (resolveImpact_frame _ _).2.2.2.1,
        (resolveImpact_frame _ _).2.2.2.2.1, (resolveImpact_frame _ _).2.2.2.2.2.1,
        (resolveImpact_frame _ _).2.2.2.2.2.2.1,
        fun i => resolveImpact_towers _ _ i, resolveImpact_towers_length _ _,
        fun i => resolveImpact_cities _ _ i, resolveImpact_cities_length _ _,
        resolveImpact_state _ _, resolveImpact_alldead_trigger _ _,
        fun h => resolveImpact_go_preserved _ _ h⟩
    · exact ⟨rfl, rfl, rfl, rfl, rfl, rfl, rfl, fun i => Or.inl rfl, rfl,
        fun i => Or.inl rfl, rfl, Or.inl rfl, fun hh => Or.inr hh, fun h => h⟩

theorem enemyPhase_spec (g : Qv) (s : GameS) (rs : RS) :
    (enemyPhase g s rs).1.pending = s.pending ∧
    (enemyPhase g s rs).1.wave = s.wave ∧
    (enemyPhase g s rs).1.interceptors = s.interceptors ∧
    (enemyPhase g s rs).1.spawnTimer = s.spawnTimer ∧
    (enemyPhase g s rs).1.isWaveClearing = s.isWaveClearing ∧
    (enemyPhase g s rs).1.isEndlessMode = s.isEndlessMode ∧
    (enemyPhase g s rs).1.lastTime = s.lastTime ∧
    (∀ i, TowerRel (s.towers.getD i noTower)
      ((enemyPhase g s rs).1.towers.getD i noTower)) ∧
    (enemyPhase g s rs).1.towers.length = s.towers.length ∧
    (∀ i, CityRel (s.cities.getD i noCity)
      ((enemyPhase g s rs).1.cities.getD i noCity)) ∧
    (enemyPhase g s rs).1.cities.length = s.cities.length ∧
    ((enemyPhase g s rs).1.state = s.state ∨
      ((enemyPhase g s rs).1.state = GState.GAME_OVER ∧
        (enemyPhase g s rs).1.cities.all (fun c => !c.alive) = true)) ∧
    (s.cities.any (fun c => c.alive) = true →
      (enemyPhase g s rs).1.cities.all (fun c => !c.alive) = true →
      (enemyPhase g s rs).1.state = GState.GAME_OVER) ∧
    (s.state = GState.GAME_OVER →
      (enemyPhase g s rs).1.state = GState.GAME_OVER) := by
  unfold enemyPhase
  refine foldlRec (fun x =>
      x.1.pending = s.pending ∧ x.1.wave = s.wave ∧
      x.1.interceptors = s.interceptors ∧ x.1.spawnTimer = s.spawnTimer ∧
      x.1.isWaveClearing = s.isWaveClearing ∧
      x.1.isEndlessMode = s.isEndlessMode ∧ x.1.lastTime = s.lastTime ∧
      (∀ i, TowerRel (s.towers.getD i noTower) (x.1.towers.getD i noTower)) ∧
      x.1.towers.length = s.towers.length ∧
      (∀ i, CityRel (s.cities.getD i noCity) (x.1.cities.getD i noCity)) ∧
      x.1.cities.length = s.cities.length ∧
      (x.1.state = s.state ∨
        (x.1.state = GState.GAME_OVER ∧ x.1.cities.all (fun c => !c.alive) = true)) ∧
      (s.cities.any (fun c => c.alive) = true →
        x.1.cities.all (fun c => !c.alive) = true → x.1.state = GState.GAME_OVER) ∧
      (s.state = GState.GAME_OVER → x.1.state = GState.GAME_OVER))
    (stepEnemy g) s.enemies ({ s with enemies := [] }, rs) ?_ ?_
  · refine ⟨rfl, rfl, rfl, rfl, rfl, rfl, rfl, fun i => towerRel_refl _, rfl,
      fun i => Or.inl rfl, rfl, Or.inl rfl, ?_, fun h => h⟩
    intro hany hall
    obtain ⟨c, hc, hca⟩ := List.any_eq_true.mp hany
    have hdead := List.all_eq_true.mp hall c hc
    rw [hca] at hdead
    exact absurd hdead (by simp)
  · intro b a hb
    obtain ⟨h1, h2, h3, h4, h5, h6, h7, h8, h9, h10, h11, h12, h13, h14⟩ := hb
    obtain ⟨g1, g2, g3, g4, g5, g6, g7, g8, g9, g10, g11, g12, g13, g14⟩ :=
      stepEnemy_spec g b a
    refine ⟨g1.trans h1, g2.trans h2, g3.trans h3, g4.trans h4, g5.trans h5,
      g6.trans h6, g7.trans h7,
      fun i => towerRel_trans (h8 i) (g8 i), g9.trans h9,
      fun i => cityRel_trans (h10 i) (g10 i), g11.trans h11, ?_, ?_, ?_⟩
    · rcases g12 with hst | ⟨hgo, hdead⟩
      · rcases h12 with hst' | ⟨hgo', hdead'⟩
        · exact Or.inl (hst.trans hst')
        · exact Or.inr ⟨hst.trans hgo', cityRel_all_dead g10 g11 hdead'⟩
      · exact Or.inr ⟨hgo, hdead⟩
    · intro hany hall
      rcases g13 hall with hgo | hdead
      · exact hgo
      · exact g14 (h13 hany hdead)
    · intro h
      exact g14 (h14 h)

theorem tickLogic_spec (w h t : Qv) (rng : Nat → Qv) (s1 : GameS) :
    (∀ i, TowerRel (s1.towers.getD i noTower)
      ((tickLogic w h t rng s1).towers.getD i noTower)) ∧
    (tickLogic w h t rng s1).towers.length = s1.towers.length ∧
    (∀ i, CityRel (s1.cities.getD i noCity)
      ((tickLogic w h t rng s1).cities.getD i noCity)) ∧
    (tickLogic w h t rng s1).cities.length = s1.cities.length ∧
    ((tickLogic w h t rng s1).state = s1.state ∨
      ((tickLogic w h t rng s1).state = GState.GAME_OVER ∧
        (tickLogic w h t rng s1).cities.all (fun c => !c.alive) = true)) ∧
    (∃ tg, (tickLogic w h t rng s1).pending = s1.pending ++ tg ∧
      ∀ g ∈ tg, g = GState.WAVE_COMPLETE ∨ g = GState.VICTORY) ∧
    (s1.cities.any (fun c => c.alive) = true →
      (tickLogic w h t rng s1).cities.all (fun c => !c.alive) = true →
      (tickLogic w h t rng s1).state = GState.GAME_OVER) ∧
    (tickLogic w h t rng s1).wave = s1.wave ∧
    (tickLogic w h t rng s1).isEndlessMode = s1.isEndlessMode := by
  simp only [tickLogic]
  obtain ⟨stA, enA, hA⟩ := spawnPhase_shape w h t s1 ⟨rng, 0⟩
  rw [hA]
  obtain ⟨bcl, hB⟩ :=
    clearFlagPhase_shape { s1 with spawnTimer := stA, enemies := enA }
  rw [hB]
  obtain ⟨sc, ft, wb, cl, tg, hC, htg⟩ :=
    settlePhase_shape w h
      { s1 with spawnTimer := stA, enemies := enA, isWaveClearing := bcl }
      (spawnPhase w h t s1 ⟨rng, 0⟩).2
  rw [hC]
  obtain ⟨ic, ex, hD⟩ := interPhase_shape _ _
  rw [hD]
  obtain ⟨ex2, hE⟩ := growPhase_shape _
  rw [hE]
  obtain ⟨e1, e2, e3, e4, e5, e6, e7, e8, e9, e10, e11, e12, e13, e14⟩ :=
    enemyPhase_spec (h - 40) _ _
  exact ⟨fun i => e8 i, e9, fun i => e10 i, e11, e12, ⟨tg, e1, htg⟩, e13, e2, e6⟩


theorem update_paused (w h t : Qv) (rng : Nat → Qv) (s : GameS)
    (hs : s.state ≠ GState.PLAYING) :
    update w h t rng s = { s with lastTime := t } := by
  simp only [update]
  exact if_pos hs

theorem update_playing (w h t : Qv) (rng : Nat → Qv) (s : GameS)
    (hs : s.state = GState.PLAYING) :
    update w h t rng s = tickLogic w h t rng { s with lastTime := t } := by
  simp only [update]
  exact if_neg (by simp [hs])

/-! ### The input resolver -/

theorem sel_eligible (towers : List Tower) (tap : Pt) (l : List (Pt × Nat)) :
    ∀ i, (l.foldl (selStep towers tap) (none, none)).2 = some i →
      (towers.getD i noTower).alive = true ∧ 0 < (towers.getD i noTower).ammo := by
  refine foldlRec
    (fun acc => ∀ i, acc.2 = some i →
      (towers.getD i noTower).alive = true ∧ 0 < (towers.getD i noTower).ammo)
    (selStep towers tap) l (none, none) ?_ ?_
  · intro i hi
    exact absurd hi (by simp)
  · intro b p hb i hi
    simp only [selStep] at hi
    split at hi
    · rename_i hc
      simp only [Bool.and_eq_true] at hc
      obtain ⟨⟨_, halive⟩, hammo⟩ := hc
      obtain rfl : p.2 = i := by simpa using hi
      exact ⟨halive, of_decide_eq_true hammo⟩
    · exact hb i hi

theorem handleInput_shape (w h cx cy : Qv) (rng : Nat → Qv) (s : GameS) :
    handleInput w h cx cy rng s = s ∨
      ∃ i nI,
        (s.towers.getD i noTower).alive = true ∧
        0 < (s.towers.getD i noTower).ammo ∧
        handleInput w h cx cy rng s =
          { s with
            interceptors := s.interceptors ++ [nI],
            towers := listModify s.towers i fun t => { t with ammo := t.ammo - 1 } } := by
  simp only [handleInput]
  split
  · exact Or.inl rfl
  · split
    · exact Or.inl rfl
    · rename_i i heq
      obtain ⟨halive, hammo⟩ := sel_eligible s.towers ⟨cx, cy⟩ _ i heq
      exact Or.inr ⟨i, _, halive, hammo, rfl⟩

/-! ### The global invariant -/

theorem getD_map {α β : Type} (f : α → β) (l : List α) (i : Nat) (d : α) (d' : β) :
    (l.map f).getD i d' = if i < l.length then f (l.getD i d) else d' := by
  induction l generalizing i with
  | nil => simp
  | cons a t ih =>
    cases i with
    | zero => simp
    | succ n =>
      simp only [List.map_cons, List.getD_cons_succ, ih]
      by_cases hn : n < t.length
      · rw [if_pos hn, if_pos (by simpa using Nat.succ_lt_succ hn)]
      · rw [if_neg hn, if_neg (by simp; omega)]

/-- Invariant of every reachable state: ammo and capacity never negative,
GAME_OVER only with every city dead, and only WAVE_COMPLETE/VICTORY ever
scheduled as a deferred transition. -/
def GInv (s : GameS) : Prop :=
  (∀ i, 0 ≤ (s.towers.getD i noTower).ammo ∧ 0 ≤ (s.towers.getD i noTower).maxAmmo) ∧
  (s.state = GState.GAME_OVER → s.cities.all (fun c => !c.alive) = true) ∧
  (∀ g ∈ s.pending, g = GState.WAVE_COMPLETE ∨ g = GState.VICTORY)

theorem initialTowers_ammo (i : Nat) :
    0 ≤ (initialTowers.getD i noTower).ammo ∧
    0 ≤ (initialTowers.getD i noTower).maxAmmo := by
  rcases i with _ | _ | _ | n <;>
    simp [initialTowers, noTower, List.getD]

theorem inv_init : GInv initState :=
  ⟨initialTowers_ammo, fun h => absurd h (by decide), by simp [initState]⟩

theorem inv_initGame (now : Qv) (s : GameS) (hI : GInv s) : GInv (initGame now s) := by
  refine ⟨initialTowers_ammo, ?_, hI.2.2⟩
  intro h
  exact absurd h (by simp [initGame])

theorem inv_nextWave (now : Qv) (s : GameS) (hI : GInv s) : GInv (nextWave now s) := by
  refine ⟨?_, ?_, hI.2.2⟩
  · intro i
    have hi := hI.1 i
    simp only [nextWave]
    rw [getD_map _ _ _ noTower]
    split
    · exact ⟨hi.2, hi.2⟩
    · exact ⟨le_refl 0, le_refl 0⟩
  · intro h
    exact absurd h (by simp [nextWave])

theorem step_inv (a : Act) (s : GameS) (hI : GInv s) : GInv (step a s) := by
  obtain ⟨hT, hGO, hP⟩ := hI
  cases a with
  | tick w h t rng =>
    show GInv (update w h t rng s)
    by_cases hs : s.state = GState.PLAYING
    · rw [update_playing w h t rng s hs]
      obtain ⟨t1, t2, t3, t4, t5, ⟨tg, htg1, htg2⟩, t7, t8, t9⟩ :=
        tickLogic_spec w h t rng { s with lastTime := t }
      refine ⟨?_, ?_, ?_⟩
      · intro i
        rcases t1 i with hr | hr <;> rw [hr]
        · exact hT i
        · exact ⟨le_refl 0, (hT i).2⟩
      · intro hgo
        rcases t5 with hst | ⟨_, hdead⟩
        · rw [hgo] at hst
          exact absurd hst.symm (by simp [hs])
        · exact hdead
      · intro g hg
        rw [htg1] at hg
        rcases List.mem_append.mp hg with hg | hg
        · exact hP g hg
        · exact htg2 g hg
    · rw [update_paused w h t rng s hs]
      exact ⟨hT, fun h => hGO h, hP⟩
  | input w h cx cy rng =>
    show GInv (handleInput w h cx cy rng s)
    rcases handleInput_shape w h cx cy rng s with heq | ⟨i, nI, halive, hammo, heq⟩ <;>
      rw [heq]
    · exact ⟨hT, hGO, hP⟩
    · refine ⟨?_, hGO, hP⟩
      intro j
      dsimp only
      rw [listModify_getD]
      split
      · rename_i hc
        have hij : i = j := hc.1
        subst hij
        exact ⟨show 0 ≤ (s.towers.getD i noTower).ammo - 1 by omega, (hT i).2⟩
      · exact hT j
  | startBtn now =>
    simp only [step]
    split
    · exact inv_initGame now s ⟨hT, hGO, hP⟩
    · exact ⟨hT, hGO, hP⟩
  | pauseBtn =>
    simp only [step]
    split
    · exact ⟨hT, fun h => absurd h (by simp), hP⟩
    · split
      · exact ⟨hT, fun h => absurd h (by simp), hP⟩
      · exact ⟨hT, hGO, hP⟩
  | resumeBtn =>
    simp only [step]
    split
    · exact ⟨hT, fun h => absurd h (by simp), hP⟩
    · exact ⟨hT, hGO, hP⟩
  | quitBtn =>
    simp only [step]
    split
    · exact ⟨hT, fun h => absurd h (by simp), hP⟩
    · exact ⟨hT, hGO, hP⟩
  | nextWaveBtn now =>
    simp only [step]
    split
    · exact inv_nextWave now s ⟨hT, hGO, hP⟩
    · exact ⟨hT, hGO, hP⟩
  | endlessBtn now =>
    simp only [step]
    split
    · exact inv_nextWave now _
        ⟨hT, fun h => absurd (show GState.PLAYING = GState.GAME_OVER from h) (by decide), hP⟩
    · exact ⟨hT, hGO, hP⟩
  | timerFire =>
    simp only [step]
    split
    · exact ⟨hT, hGO, hP⟩
    · rename_i g rest hpend
      have hg := hP g (by rw [hpend]; exact List.mem_cons_self g rest)
      refine ⟨hT, ?_, ?_⟩
      · intro h
        have h' : g = GState.GAME_OVER := h
        rcases hg with hg | hg <;> rw [hg] at h' <;> exact absurd h' (by decide)
      · intro g' hg'
        exact hP g' (by rw [hpend]; exact List.mem_cons_of_mem g hg')

theorem reachable_inv {s : GameS} (h : Reachable s) : GInv s := by
  induction h with
  | init => exact inv_init
  | step a _ ih => exact step_inv a _ ih

/-! ### Claim theorems -/

set_option maxRecDepth 8000

/-- C10: a frame tick in any state other than PLAYING leaves the whole
simulation state unchanged — no spawn, no movement, no cull, and score, wave,
towers and cities keep their values; the only write is the frame-clock
bookkeeping `lastTime`. -/
theorem c10_nonplaying_tick_frozen (s : GameS) (w h t : Qv) (rng : Nat → Qv)
    (hs : s.state ≠ GState.PLAYING) :
    step (Act.tick w h t rng) s = { s with lastTime := t } :=
  update_paused w h t rng s hs

/-- Witness for C10 at a concrete MENU state. -/
theorem c10_witness :
    step (Act.tick 800 600 5 oZero) initState = { initState with lastTime := 5 } :=
  c10_nonplaying_tick_frozen initState 800 600 5 oZero (by decide)

/-- C1 (code bug): starting from the spec's wave-bonus scenario (wave 3,
score 600, towers alive with 10 and 0 ammo, no enemies or blasts), the first
settlement frame adds the bonus 50 once (score 650) — but because
`isWaveClearing` is dropped while the wave counter has not advanced, the very
next frame re-qualifies and adds the same bonus again (score 700), scheduling
a second deferred transition as well.  The claim's "exactly once" fails. -/
theorem c1_bonus_added_every_grace_frame :
    bonusRun1.score = 650 ∧ bonusRun1.waveBonus = 50 ∧
    bonusRun1.pending = [GState.WAVE_COMPLETE] ∧
    bonusRun2.score = 700 ∧
    bonusRun2.pending = [GState.WAVE_COMPLETE, GState.WAVE_COMPLETE] := by
  decide

/-- C2 (code bug): the settlement schedules a deferred WAVE_COMPLETE
transition; pausing, quitting to the menu and restarting within the grace
period resets the game to a fresh PLAYING state with score 0, yet the stale
scheduled callback still fires and moves the freshly-reset game to
WAVE_COMPLETE — nothing in `initGame` invalidates pending timeouts. -/
theorem c2_stale_deferred_transition_fires :
    staleRun.state = GState.PLAYING ∧ staleRun.score = 0 ∧
    staleRun.pending = [GState.WAVE_COMPLETE] ∧
    staleFired.state = GState.WAVE_COMPLETE := by
  decide

/-- C3: GAME_OVER holds in a reachable state only when every city is dead,
and a PLAYING frame that kills the last alive city ends in GAME_OVER. -/
theorem c3_gameover_iff_all_cities_dead (s : GameS) (hre : Reachable s) :
    (s.state = GState.GAME_OVER → s.cities.all (fun c => !c.alive) = true) ∧
    (∀ (w h t : Qv) (rng : Nat → Qv), s.state = GState.PLAYING →
      s.cities.any (fun c => c.alive) = true →
      (update w h t rng s).cities.all (fun c => !c.alive) = true →
      (update w h t rng s).state = GState.GAME_OVER) := by
  refine ⟨(reachable_inv hre).2.1, ?_⟩
  intro w h t rng hs hany hall
  rw [update_playing w h t rng s hs] at hall ⊢
  obtain ⟨_, _, _, _, _, _, t7, _, _⟩ :=
    tickLogic_spec w h t rng { s with lastTime := t }
  exact t7 hany hall

theorem reach_defeatR6 : Reachable defeatR6 :=
  Reachable.step _ (Reachable.step _ (Reachable.step _ (Reachable.step _
    (Reachable.step _ (Reachable.step _ Reachable.init)))))

theorem reach_defeatR7 : Reachable defeatR7 := Reachable.step _ reach_defeatR6

/-- Witness for C3: the concrete six-impact run reaches GAME_OVER, and the
theorem applied to that reachable state yields that every city is dead. -/
theorem c3_witness : defeatR7.cities.all (fun c => !c.alive) = true :=
  (c3_gameover_iff_all_cities_dead defeatR7 reach_defeatR7).1 (by decide)

/-- `a` is one of the actions that refill towers (game-start reset or
new-wave reset). -/
def isResetAct : Act → Prop
  | Act.startBtn _ => True
  | Act.nextWaveBtn _ => True
  | Act.endlessBtn _ => True
  | _ => False

/-- C6: in every reachable state ammo is never negative, and no action other
than a reset (game start, next wave, endless continuation — the refills to
`maxAmmo`) ever increases any tower's ammo. -/
theorem c6_ammo_never_negative_never_increases (s : GameS) (hre : Reachable s) :
    (∀ i, 0 ≤ (s.towers.getD i noTower).ammo) ∧
    (∀ a : Act, ¬ isResetAct a →
      ∀ i, ((step a s).towers.getD i noTower).ammo ≤ (s.towers.getD i noTower).ammo) := by
  have hI := reachable_inv hre
  refine ⟨fun i => (hI.1 i).1, ?_⟩
  intro a hna i
  cases a with
  | tick w h t rng =>
    show ((update w h t rng s).towers.getD i noTower).ammo ≤ _
    by_cases hs : s.state = GState.PLAYING
    · rw [update_playing w h t rng s hs]
      obtain ⟨t1, _, _, _, _, _, _, _, _⟩ :=
        tickLogic_spec w h t rng { s with lastTime := t }
      rcases t1 i with hr | hr
      · rw [hr]
      · rw [hr]
        exact (hI.1 i).1
    · rw [update_paused w h t rng s hs]
  | input w h cx cy rng =>
    show ((handleInput w h cx cy rng s).towers.getD i noTower).ammo ≤ _
    rcases handleInput_shape w h cx cy rng s with heq | ⟨j, nI, _, _, heq⟩
    · rw [heq]
    · rw [heq]
      dsimp only
      rw [listModify_getD]
      split
      · rename_i hc
        have hij : j = i := hc.1
        subst hij
        exact show (s.towers.getD j noTower).ammo - 1 ≤ _ by omega
      · exact Int.le_refl _
  | startBtn now => exact absurd trivial hna
  | pauseBtn =>
    simp only [step]
    split
    · exact Int.le_refl _
    · split
      · exact Int.le_refl _
      · exact Int.le_refl _
  | resumeBtn =>
    simp only [step]
    split
    · exact Int.le_refl _
    · exact Int.le_refl _
  | quitBtn =>
    simp only [step]
    split
    · exact Int.le_refl _
    · exact Int.le_refl _
  | nextWaveBtn now => exact absurd trivial hna
  | endlessBtn now => exact absurd trivial hna
  | timerFire =>
    simp only [step]
    split
    · exact Int.le_refl _
    · exact Int.le_refl _

/-- Witness for C6 at the initial state with a pause action. -/
theorem c6_witness :
    0 ≤ (initState.towers.getD 0 noTower).ammo ∧
    ((step Act.pauseBtn initState).towers.getD 0 noTower).ammo ≤
      (initState.towers.getD 0 noTower).ammo :=
  ⟨(c6_ammo_never_negative_never_increases initState Reachable.init).1 0,
   (c6_ammo_never_negative_never_increases initState Reachable.init).2
     Act.pauseBtn (fun hf => hf) 0⟩

/-- A wave-complete state for exercising the next-wave button. -/
def wcS : GameS := { bonusS with state := GState.WAVE_COMPLETE }

/-- C9: `nextWave` repairs and refills every tower (`alive := true`,
`ammo := maxAmmo`), increments the wave counter by exactly one, and leaves
the cities untouched; the WAVE_COMPLETE button performs exactly `nextWave`;
and no action other than the game-start reset ever revives a dead city. -/
theorem c9_new_wave_repairs_towers_not_cities :
    (∀ (s : GameS) (now : Qv),
      (nextWave now s).towers =
        s.towers.map (fun t => { t with alive := true, ammo := t.maxAmmo }) ∧
      (nextWave now s).wave = s.wave + 1 ∧
      (nextWave now s).cities = s.cities ∧
      (s.state = GState.WAVE_COMPLETE →
        step (Act.nextWaveBtn now) s = nextWave now s)) ∧
    (∀ (s : GameS) (a : Act) (i : Nat), (∀ now, a ≠ Act.startBtn now) →
      (s.cities.getD i noCity).alive = false →
      ((step a s).cities.getD i noCity).alive = false) := by
  constructor
  · intro s now
    exact ⟨rfl, rfl, rfl, fun hwc => if_pos hwc⟩
  · intro s a i hns hdead
    cases a with
    | tick w h t rng =>
      show (((update w h t rng s).cities.getD i noCity)).alive = false
      by_cases hs : s.state = GState.PLAYING
      · rw [update_playing w h t rng s hs]
        obtain ⟨_, _, t3, _, _, _, _, _, _⟩ :=
          tickLogic_spec w h t rng { s with lastTime := t }
        rcases t3 i with hr | hr
        · rw [hr]
          exact hdead
        · rw [hr]
      · rw [update_paused w h t rng s hs]
        exact hdead
    | input w h cx cy rng =>
      show (((handleInput w h cx cy rng s).cities.getD i noCity)).alive = false
      rcases handleInput_shape w h cx cy rng s with heq | ⟨j, nI, _, _, heq⟩ <;>
        rw [heq] <;> exact hdead
    | startBtn now => exact absurd rfl (hns now)
    | pauseBtn =>
      simp only [step]
      split
      · exact hdead
      · split
        · exact hdead
        · exact hdead
    | resumeBtn =>
      simp only [step]
      split
      · exact hdead
      · exact hdead
    | quitBtn =>
      simp only [step]
      split
      · exact hdead
      · exact hdead
    | nextWaveBtn now =>
      simp only [step]
      split
      · exact hdead
      · exact hdead
    | endlessBtn now =>
      simp only [step]
      split
      · exact hdead
      · exact hdead
    | timerFire =>
      simp only [step]
      split
      · exact hdead
      · exact hdead

/-- Witness for C9: next-wave on a concrete WAVE_COMPLETE state, and a dead
city staying dead across a pause. -/
theorem c9_witness :
    step (Act.nextWaveBtn 7) wcS = nextWave 7 wcS ∧
    ((step Act.pauseBtn defeatR7).cities.getD 0 noCity).alive = false :=
  ⟨(c9_new_wave_repairs_towers_not_cities.1 wcS 7).2.2.2 rfl,
   c9_new_wave_repairs_towers_not_cities.2 defeatR7 Act.pauseBtn 0
     (fun now h => Act.noConfusion h) (by decide)⟩

theorem Qv.le_refl (a : Qv) : a ≤ a := Int.le_refl _

theorem Qv.mul_num (a b : Qv) : (a * b).num = a.num * b.num := rfl

theorem Qv.mul_den (a b : Qv) : (a * b).den = a.den * b.den := rfl

/-- C4 counterexample: there is no well-formed factor `k` making the
per-frame displacement of the `deltaS` interceptor proportional (in rational
value) to the clamped delta: the raw deltas 10 and 50 clamp to 10 and 50 yet
produce the identical displacement 15, because the source computes `safeDt`
and never uses it. -/
theorem c4_counterexample :
    ¬ ∃ k : Qv, k.Wf ∧ ∀ t : Qv, (dispDelta t).eqv (k * safeDtOf t) := by
  rintro ⟨k, hk, hall⟩
  have h10 := hall 10
  have h50 := hall 50
  rw [show dispDelta 10 = ⟨15, 1⟩ from by decide,
    show safeDtOf 10 = (⟨10, 1⟩ : Qv) from by decide] at h10
  rw [show dispDelta 50 = ⟨15, 1⟩ from by decide,
    show safeDtOf 50 = (⟨50, 1⟩ : Qv) from by decide] at h50
  simp only [Qv.eqv, Qv.mul_num, Qv.mul_den] at h10 h50
  have hden : 0 < k.den := hk
  push_cast at h10 h50
  omega

/-- C4 as amended: each frame derives the raw delta and clamps it to the
50ms cap (`safeDt`), but entity advancement does not consume it: every
interceptor and enemy advances by exactly its per-frame velocity vector, so
per-frame displacement is fixed and bounded independently of the raw delta
(shown concretely: raw deltas 10 and 10000 both displace the `deltaS`
interceptor by exactly 15) — it is not proportional to the clamped delta. -/
theorem c4_clamp_computed_but_displacement_fixed :
    (∀ dt : Qv, safeDtOf dt = qmin dt 50 ∧ (dt ≤ 50 → safeDtOf dt = dt) ∧
      safeDtOf dt ≤ 50) ∧
    (∀ (acc : GameS × RS) (p : Interceptor), ∃ q,
      (stepInterceptor acc p).1.interceptors = acc.1.interceptors ++ [q] ∧
      q.x = p.x + p.vx ∧ q.y = p.y + p.vy) ∧
    (∀ (g : Qv) (acc : GameS × RS) (e : Enemy), ∃ q,
      (stepEnemy g acc e).1.enemies = acc.1.enemies ++ [q] ∧
      q.x = e.x + e.vx ∧ q.y = e.y + e.vy) ∧
    (dispDelta 10 = dispDelta 10000 ∧ dispDelta 10 = ⟨15, 1⟩) := by
  refine ⟨?_, ?_, ?_, by decide⟩
  · intro dt
    refine ⟨rfl, ?_, ?_⟩
    · intro hle
      simp only [safeDtOf, qmin]
      exact if_pos hle
    · simp only [safeDtOf, qmin]
      split
      · assumption
      · exact Qv.le_refl _
  · intro acc p
    simp only [stepInterceptor]
    split
    · exact ⟨_, rfl, rfl, rfl⟩
    · exact ⟨_, rfl, rfl, rfl⟩
  · intro g acc e
    simp only [stepEnemy]
    split
    · exact ⟨_, rfl, rfl, rfl⟩
    · split
      · exact ⟨{ e with x := e.x + e.vx, y := e.y + e.vy, dead := true, trail := trailPush 15 e.trail ⟨e.x + e.vx, e.y + e.vy⟩ }, by rw [(resolveImpact_frame _ _).2.2.2.2.2.2.2.1], rfl, rfl⟩
      · exact ⟨_, rfl, rfl, rfl⟩

/-- Witness for the amended C4: a small delta passes through the clamp. -/
theorem c4_witness : safeDtOf 30 = 30 :=
  (c4_clamp_computed_but_displacement_fixed.1 30).2.1 (by decide)

/-- The transitions C7 lists: Menu→Playing on start, the Playing↔Paused
toggle, Playing→GameOver, the deferred Playing→WaveComplete and
Playing→Victory, WaveComplete→Playing on next-wave, Victory→Playing on the
endless continuation, and restart from the terminal screens back to the
Menu-reset (PLAYING) baseline. -/
def claimAllowed : GState → GState → Bool
  | GState.MENU, GState.PLAYING => true
  | GState.PLAYING, GState.PAUSED => true
  | GState.PAUSED, GState.PLAYING => true
  | GState.PLAYING, GState.GAME_OVER => true
  | GState.PLAYING, GState.WAVE_COMPLETE => true
  | GState.PLAYING, GState.VICTORY => true
  | GState.WAVE_COMPLETE, GState.PLAYING => true
  | GState.VICTORY, GState.PLAYING => true
  | GState.GAME_OVER, GState.PLAYING => true
  | _, _ => false

/-- A reachable PAUSED state: start the game, press pause. -/
def pausedS : GameS := step Act.pauseBtn defeatR1

theorem reach_pausedS : Reachable pausedS :=
  Reachable.step _ (Reachable.step _ Reachable.init)

/-- C7 counterexample: the PAUSED overlay's quit button moves a reachable
paused game to MENU, a transition absent from the claim's list. -/
theorem c7_counterexample :
    ¬ ∀ (s : GameS) (a : Act), Reachable s →
      (step a s).state ≠ s.state → claimAllowed s.state ((step a s).state) = true := by
  intro hclaim
  have h := hclaim pausedS Act.quitBtn reach_pausedS (by decide)
  exact absurd h (by decide)

/-- Per-action transition envelope of the implementation: the claim's list,
plus the PAUSED overlay's quit (Paused→Menu), plus the deferred `setTimeout`
callbacks, which fire unguarded from whatever state is current (the defect
recorded with C2) into WAVE_COMPLETE or VICTORY. -/
def allowedAmended : Act → GState → GState → Bool
  | Act.tick _ _ _ _, f, t => decide (f = GState.PLAYING) && decide (t = GState.GAME_OVER)
  | Act.input _ _ _ _ _, _, _ => false
  | Act.startBtn _, f, t =>
    (decide (f = GState.MENU) || decide (f = GState.GAME_OVER) ||
      decide (f = GState.VICTORY)) && decide (t = GState.PLAYING)
  | Act.pauseBtn, f, t =>
    (decide (f = GState.PLAYING) && decide (t = GState.PAUSED)) ||
      (decide (f = GState.PAUSED) && decide (t = GState.PLAYING))
  | Act.resumeBtn, f, t => decide (f = GState.PAUSED) && decide (t = GState.PLAYING)
  | Act.quitBtn, f, t => decide (f = GState.PAUSED) && decide (t = GState.MENU)
  | Act.nextWaveBtn _, f, t =>
    decide (f = GState.WAVE_COMPLETE) && decide (t = GState.PLAYING)
  | Act.endlessBtn _, f, t => decide (f = GState.VICTORY) && decide (t = GState.PLAYING)
  | Act.timerFire, _, t =>
    decide (t = GState.WAVE_COMPLETE) || decide (t = GState.VICTORY)

/-- The UI actions (everything except the frame tick and the timer
callbacks). -/
def isButton : Act → Bool
  | Act.tick _ _ _ _ => false
  | Act.timerFire => false
  | _ => true

/-- The states in which each UI action's control is rendered/enabled. -/
def buttonApplicable : Act → GState → Bool
  | Act.tick _ _ _ _, _ => true
  | Act.timerFire, _ => true
  | Act.input _ _ _ _ _, st => decide (st = GState.PLAYING)
  | Act.startBtn _, st =>
    decide (st = GState.MENU) || decide (st = GState.GAME_OVER) ||
      decide (st = GState.VICTORY)
  | Act.pauseBtn, st => decide (st = GState.PLAYING) || decide (st = GState.PAUSED)
  | Act.resumeBtn, st => decide (st = GState.PAUSED)
  | Act.quitBtn, st => decide (st = GState.PAUSED)
  | Act.nextWaveBtn _, st => decide (st = GState.WAVE_COMPLETE)
  | Act.endlessBtn _, st => decide (st = GState.VICTORY)

/-- C7 as amended: on reachable states, every state change performed by an
action falls within `allowedAmended` — the claim's transition list plus the
quit button's Paused→Menu and the unguarded deferred callbacks — and every
UI action attempted in a state where its control is not rendered is a
complete no-op. -/
theorem c7_transitions_amended (s : GameS) (hre : Reachable s) (a : Act) :
    ((step a s).state ≠ s.state →
      allowedAmended a s.state ((step a s).state) = true) ∧
    (isButton a = true → buttonApplicable a s.state = false → step a s = s) := by
  constructor
  · intro hne
    cases a with
    | tick w h t rng =>
      simp only [step] at hne ⊢
      by_cases hs : s.state = GState.PLAYING
      · rw [update_playing w h t rng s hs] at hne ⊢
        obtain ⟨_, _, _, _, t5, _, _, _, _⟩ :=
          tickLogic_spec w h t rng { s with lastTime := t }
        rcases t5 with hst | ⟨hgo, _⟩
        · exact absurd hst hne
        · rw [hgo, hs]
          rfl
      · rw [update_paused w h t rng s hs] at hne
        exact absurd rfl hne
    | input w h cx cy rng =>
      simp only [step] at hne
      rcases handleInput_shape w h cx cy rng s with heq | ⟨i, nI, _, _, heq⟩ <;>
        rw [heq] at hne <;> exact absurd rfl hne
    | startBtn now =>
      simp only [step] at hne ⊢
      by_cases hc : s.state = GState.MENU ∨ s.state = GState.GAME_OVER ∨
          s.state = GState.VICTORY
      · rw [if_pos hc] at hne ⊢
        rcases hc with h1 | h1 | h1 <;> rw [h1] <;> rfl
      · rw [if_neg hc] at hne
        exact absurd rfl hne
    | pauseBtn =>
      simp only [step] at hne ⊢
      by_cases h1 : s.state = GState.PLAYING
      · rw [if_pos h1] at hne ⊢
        rw [h1]
        rfl
      · rw [if_neg h1] at hne ⊢
        by_cases h2 : s.state = GState.PAUSED
        · rw [if_pos h2] at hne ⊢
          rw [h2]
          rfl
        · rw [if_neg h2] at hne
          exact absurd rfl hne
    | resumeBtn =>
      simp only [step] at hne ⊢
      by_cases h1 : s.state = GState.PAUSED
      · rw [if_pos h1] at hne ⊢
        rw [h1]
        rfl
      · rw [if_neg h1] at hne
        exact absurd rfl hne
    | quitBtn =>
      simp only [step] at hne ⊢
      by_cases h1 : s.state = GState.PAUSED
      · rw [if_pos h1] at hne ⊢
        rw [h1]
        rfl
      · rw [if_neg h1] at hne
        exact absurd rfl hne
    | nextWaveBtn now =>
      simp only [step] at hne ⊢
      by_cases h1 : s.state = GState.WAVE_COMPLETE
      · rw [if_pos h1] at hne ⊢
        rw [h1]
        rfl
      · rw [if_neg h1] at hne
        exact absurd rfl hne
    | endlessBtn now =>
      simp only [step] at hne ⊢
      by_cases h1 : s.state = GState.VICTORY
      · rw [if_pos h1] at hne ⊢
        rw [h1]
        rfl
      · rw [if_neg h1] at hne
        exact absurd rfl hne
    | timerFire =>
      simp only [step] at hne ⊢
      cases hpend : s.pending with
      | nil =>
        rw [hpend] at hne
        exact absurd rfl hne
      | cons g rest =>
        have hg := (reachable_inv hre).2.2 g
          (by rw [hpend]; exact List.mem_cons_self g rest)
        show allowedAmended Act.timerFire s.state g = true
        rcases hg with hg | hg <;> rw [hg] <;> rfl
  · intro hbtn happ
    cases a with
    | tick w h t rng => exact Bool.noConfusion hbtn
    | timerFire => exact Bool.noConfusion hbtn
    | input w h cx cy rng =>
      have hs : ¬ s.state = GState.PLAYING := of_decide_eq_false happ
      simp only [step, handleInput]
      exact if_pos hs
    | startBtn now =>
      simp only [buttonApplicable, Bool.or_eq_false_iff, decide_eq_false_iff_not] at happ
      simp only [step]
      exact if_neg fun hc => by
        rcases hc with h | h | h
        · exact happ.1.1 h
        · exact happ.1.2 h
        · exact happ.2 h
    | pauseBtn =>
      simp only [buttonApplicable, Bool.or_eq_false_iff, decide_eq_false_iff_not] at happ
      simp only [step]
      rw [if_neg happ.1, if_neg happ.2]
    | resumeBtn =>
      simp only [step]
      rw [if_neg (of_decide_eq_false happ)]
    | quitBtn =>
      simp only [step]
      rw [if_neg (of_decide_eq_false happ)]
    | nextWaveBtn now =>
      simp only [step]
      rw [if_neg (of_decide_eq_false happ)]
    | endlessBtn now =>
      simp only [step]
      rw [if_neg (of_decide_eq_false happ)]

/-- Witness for the amended C7: the quit transition falls in the envelope,
and a tap in the MENU state is a no-op. -/
theorem c7_witness :
    allowedAmended Act.quitBtn pausedS.state ((step Act.quitBtn pausedS).state) = true ∧
    step (Act.input 800 600 5 5 oZero) initState = initState :=
  ⟨(c7_transitions_amended pausedS reach_pausedS Act.quitBtn).1 (by decide),
   (c7_transitions_amended initState Reachable.init (Act.input 800 600 5 5 oZero)).2
     rfl (by decide)⟩

theorem find?_append_first {α : Type} (p : α → Bool) (pre : List α) (x : α)
    (post : List α) (hpre : ∀ y ∈ pre, p y = false) (hx : p x = true) :
    (pre ++ x :: post).find? p = some x := by
  induction pre with
  | nil => exact List.find?_cons_of_pos _ hx
  | cons a t ih =>
    have ha := hpre a (List.mem_cons_self a t)
    rw [List.cons_append, List.find?_cons_of_neg _ (by simp [ha])]
    exact ih fun y hy => hpre y (List.mem_cons_of_mem a hy)

/-- An enemy one frame from the spec's chain scenario, for exercising
first-match semantics. -/
def c8WE : Enemy := ⟨9, 10, 0, 0, 0, colDanger, false, 0, 1, []⟩

/-- A blast 20 away with radius 25: the first qualifying match. -/
def c8Far : Explosion := ⟨4, 30, 0, 25, 60, 4, 1, colPrimary⟩

/-- A blast at distance 0 (nearer!), but later in collection order. -/
def c8Near : Explosion := ⟨5, 10, 0, 50, 60, 4, 1, colPrimary⟩

/-- State holding the enemy and both blasts. -/
def c8WS : GameS :=
  { chainS with enemies := [c8WE], explosions := [c8Far, c8Near], interceptors := [] }

/-- C8: in the enemy pass a projectile is tested against the blast list in
collection order before the ground test — the first blast whose current
radius exceeds the distance destroys it regardless of nearer blasts later in
the list, awarding 20 points and spawning a secondary blast at the
projectile's position while cities, towers and the game state are untouched
(even if the projectile had also reached ground level).  Concretely, in the
chain scenario a single interceptor's blast kills enemy A at frame 11 (+20)
and the secondary blast it spawns kills enemy B at frame 24 (+20 again,
total 40) with no further player action. -/
theorem c8_blast_first_match_chain :
    (∀ (g : Qv) (acc : GameS × RS) (e : Enemy) (pre : List Explosion)
        (exp : Explosion) (post : List Explosion),
      acc.1.explosions = pre ++ exp :: post →
      (∀ x ∈ pre,
        distLt ⟨e.x + e.vx, e.y + e.vy⟩ ⟨x.x, x.y⟩ x.radius = false) →
      distLt ⟨e.x + e.vx, e.y + e.vy⟩ ⟨exp.x, exp.y⟩ exp.radius = true →
      (stepEnemy g acc e).1.score = acc.1.score + 20 ∧
      (∃ idv, (stepEnemy g acc e).1.explosions =
        spawnExplosion idv (e.x + e.vx) (e.y + e.vy) colSecondary acc.1.explosions) ∧
      (∃ q, (stepEnemy g acc e).1.enemies = acc.1.enemies ++ [q] ∧ q.dead = true) ∧
      (stepEnemy g acc e).1.cities = acc.1.cities ∧
      (stepEnemy g acc e).1.towers = acc.1.towers ∧
      (stepEnemy g acc e).1.state = acc.1.state) ∧
    ((chainN 10).score = 0 ∧ (chainN 11).score = 20 ∧ (chainN 23).score = 20 ∧
      (chainN 24).score = 40 ∧ (chainN 24).enemies = [] ∧
      (chainN 23).enemies.length = 1) := by
  constructor
  · intro g acc e pre exp post hacc hpre hx
    have hfind : acc.1.explosions.find?
        (fun ex => distLt ⟨e.x + e.vx, e.y + e.vy⟩ ⟨ex.x, ex.y⟩ ex.radius) =
        some exp := by
      rw [hacc]
      exact find?_append_first _ pre exp post hpre hx
    simp only [stepEnemy]
    split
    · exact ⟨rfl, ⟨_, rfl⟩, ⟨_, rfl, rfl⟩, rfl, rfl, rfl⟩
    · rename_i hnone
      rw [hfind] at hnone
      exact Option.noConfusion hnone
  · decide

/-- Witness for C8's first conjunct: the first-listed blast (distance 20,
radius 25) kills the enemy even though the second-listed blast is nearer. -/
theorem c8_witness :
    (stepEnemy 960 (c8WS, ⟨oZero, 0⟩) c8WE).1.score = c8WS.score + 20 ∧
    (stepEnemy 960 (c8WS, ⟨oZero, 0⟩) c8WE).1.cities = c8WS.cities :=
  ⟨(c8_blast_first_match_chain.1 960 (c8WS, ⟨oZero, 0⟩) c8WE [] c8Far [c8Near]
      rfl (by simp) (by decide)).1,
   (c8_blast_first_match_chain.1 960 (c8WS, ⟨oZero, 0⟩) c8WE [] c8Far [c8Near]
      rfl (by simp) (by decide)).2.2.2.1⟩

instance (a : Qv) : Decidable a.Wf := inferInstanceAs (Decidable (0 < a.den))

/-- Eligibility of tower `i` for firing: alive with ammo left. -/
def eligT (towers : List Tower) (i : Nat) : Bool :=
  (towers.getD i noTower).alive && decide (0 < (towers.getD i noTower).ammo)

/-- The `d < minDist` test of the selection loop (`minDist = Infinity` is
`none`). -/
def better1 (tap : Pt) (acc : Option Qv × Option Nat) (pj : Pt × Nat) : Bool :=
  match acc.1 with
  | none => true
  | some m => decide (sqD pj.1 tap < m)

theorem selStep_eq (towers : List Tower) (tap : Pt) (acc : Option Qv × Option Nat)
    (pj : Pt × Nat) :
    selStep towers tap acc pj =
      if better1 tap acc pj && eligT towers pj.2 then (some (sqD pj.1 tap), some pj.2)
      else acc := by
  simp only [selStep, better1, eligT, Bool.and_assoc]

/-- The squared distance between well-formed points is well-formed. -/
theorem wf_sqD {p q : Pt} (h1 : p.x.Wf) (h2 : p.y.Wf) (h3 : q.x.Wf) (h4 : q.y.Wf) :
    (sqD p q).Wf :=
  Qv.wf_add (Qv.wf_mul (Qv.wf_sub h3 h1) (Qv.wf_sub h3 h1))
    (Qv.wf_mul (Qv.wf_sub h4 h2) (Qv.wf_sub h4 h2))

/-- Every member of the position/index zip is the indexed position with an
index among 0, 1, 2. -/
theorem mem_towerZip (w h : Qv) (pj : Pt × Nat)
    (hm : pj ∈ (towerPositions w h).zip ([0, 1, 2] : List Nat)) :
    pj.2 ∈ ([0, 1, 2] : List Nat) ∧ pj.1 = (towerPositions w h).getD pj.2 noPt := by
  have hz : (towerPositions w h).zip ([0, 1, 2] : List Nat) =
      [(⟨w * (1 / 10), h - 60⟩, 0), (⟨w * (5 / 10), h - 60⟩, 1),
       (⟨w * (9 / 10), h - 60⟩, 2)] := rfl
  rw [hz] at hm
  simp only [List.mem_cons, List.not_mem_nil, or_false] at hm
  rcases hm with rfl | rfl | rfl <;> exact ⟨by simp, rfl⟩

theorem towerZip_mem (w h : Qv) (i : Nat) (hi : i ∈ ([0, 1, 2] : List Nat)) :
    ((towerPositions w h).getD i noPt, i) ∈
      (towerPositions w h).zip ([0, 1, 2] : List Nat) := by
  have hz : (towerPositions w h).zip ([0, 1, 2] : List Nat) =
      [(⟨w * (1 / 10), h - 60⟩, 0), (⟨w * (5 / 10), h - 60⟩, 1),
       (⟨w * (9 / 10), h - 60⟩, 2)] := rfl
  rw [hz]
  rcases (show i = 0 ∨ i = 1 ∨ i = 2 by simpa using hi) with rfl | rfl | rfl <;>
    simp [towerPositions]

/-- Full characterisation of the selection fold: the result stays well
formed, is either the start accumulator or an eligible entry of the list at
its own squared distance, bounds every eligible entry's distance from below,
never exceeds the incoming minimum, and never drops a selection; an eligible
entry forces a selection. -/
theorem sel_fold_main (towers : List Tower) (tap : Pt) :
    ∀ (l : List (Pt × Nat)) (acc : Option Qv × Option Nat),
      (∀ pj ∈ l, (sqD pj.1 tap).Wf) →
      (∀ m, acc.1 = some m → m.Wf) →
      (∀ m, acc.1 = some m → ∃ i, acc.2 = some i) →
      (∀ m, (l.foldl (selStep towers tap) acc).1 = some m → m.Wf) ∧
      (l.foldl (selStep towers tap) acc = acc ∨
        ∃ pj ∈ l, eligT towers pj.2 = true ∧
          l.foldl (selStep towers tap) acc = (some (sqD pj.1 tap), some pj.2)) ∧
      (∀ pj ∈ l, eligT towers pj.2 = true →
        ∀ m, (l.foldl (selStep towers tap) acc).1 = some m → m ≤ sqD pj.1 tap) ∧
      (∀ m0, acc.1 = some m0 →
        ∃ m, (l.foldl (selStep towers tap) acc).1 = some m ∧ m ≤ m0) ∧
      (∀ i0, acc.2 = some i0 → ∃ i, (l.foldl (selStep towers tap) acc).2 = some i) ∧
      ((∃ pj ∈ l, eligT towers pj.2 = true) →
        ∃ i, (l.foldl (selStep towers tap) acc).2 = some i) := by
  intro l
  induction l with
  | nil =>
    intro acc hwl hacc hc
    refine ⟨hacc, Or.inl rfl, ?_, ?_, ?_, ?_⟩
    · intro pj hpj
      exact absurd hpj (by simp)
    · intro m0 h0
      exact ⟨m0, h0, Qv.le_refl m0⟩
    · intro i0 h0
      exact ⟨i0, h0⟩
    · rintro ⟨pj, hpj, _⟩
      exact absurd hpj (by simp)
  | cons pj rest ih =>
    intro acc hwl hacc hc
    have hwhd : (sqD pj.1 tap).Wf := hwl pj (List.mem_cons_self pj rest)
    have hwrest : ∀ qk ∈ rest, (sqD qk.1 tap).Wf :=
      fun qk hqk => hwl qk (List.mem_cons_of_mem pj hqk)
    rw [List.foldl_cons]
    cases hstep : better1 tap acc pj && eligT towers pj.2 with
    | false =>
      have hs' : selStep towers tap acc pj = acc := by
        rw [selStep_eq, hstep]
        exact if_neg (by simp)
      rw [hs']
      obtain ⟨ih1, ih2, ih3, ih4, ih5, ih6⟩ := ih acc hwrest hacc hc
      refine ⟨ih1, ?_, ?_, ih4, ih5, ?_⟩
      · rcases ih2 with hres | ⟨qk, hqk, he, hr⟩
        · exact Or.inl hres
        · exact Or.inr ⟨qk, List.mem_cons_of_mem pj hqk, he, hr⟩
      · intro qk hqk helig m hm
        rcases List.mem_cons.mp hqk with rfl | hqk'
        · have hbf : better1 tap acc qk = false := by
            cases hb : better1 tap acc qk
            · rfl
            · rw [hb, helig] at hstep
              simp at hstep
          cases h1 : acc.1 with
          | none => simp [better1, h1] at hbf
          | some m0 =>
            have hnd : decide (sqD qk.1 tap < m0) = false := by
              simpa [better1, h1] using hbf
            have hm0d : m0 ≤ sqD qk.1 tap := Qv.le_of_not_lt (of_decide_eq_false hnd)
            obtain ⟨m', hm', hle⟩ := ih4 m0 h1
            rw [hm] at hm'
            obtain rfl := Option.some.inj hm'
            exact Qv.le_trans (hacc m0 h1) hle hm0d
        · exact ih3 qk hqk' helig m hm
      · rintro ⟨qk, hqk, helig⟩
        rcases List.mem_cons.mp hqk with rfl | hqk'
        · have hbf : better1 tap acc qk = false := by
            cases hb : better1 tap acc qk
            · rfl
            · rw [hb, helig] at hstep
              simp at hstep
          cases h1 : acc.1 with
          | none => simp [better1, h1] at hbf
          | some m0 =>
            obtain ⟨i0, hi0⟩ := hc m0 h1
            exact ih5 i0 hi0
        · exact ih6 ⟨qk, hqk', helig⟩
    | true =>
      have hstep2 := hstep
      simp only [Bool.and_eq_true] at hstep2
      obtain ⟨hbetter, helig⟩ := hstep2
      have hs' : selStep towers tap acc pj = (some (sqD pj.1 tap), some pj.2) := by
        rw [selStep_eq, hstep]
        exact if_pos rfl
      rw [hs']
      have hacc' : ∀ m, ((some (sqD pj.1 tap), some pj.2) : Option Qv × Option Nat).1 =
          some m → m.Wf := by
        intro m hm
        obtain rfl := Option.some.inj hm
        exact hwhd
      obtain ⟨ih1, ih2, ih3, ih4, ih5, ih6⟩ :=
        ih (some (sqD pj.1 tap), some pj.2) hwrest hacc' (fun m _ => ⟨pj.2, rfl⟩)
      refine ⟨ih1, ?_, ?_, ?_, ?_, ?_⟩
      · rcases ih2 with hres | ⟨qk, hqk, he, hr⟩
        · exact Or.inr ⟨pj, List.mem_cons_self pj rest, helig, hres⟩
        · exact Or.inr ⟨qk, List.mem_cons_of_mem pj hqk, he, hr⟩
      · intro qk hqk he m hm
        rcases List.mem_cons.mp hqk with rfl | hqk'
        · obtain ⟨m', hm', hle⟩ := ih4 (sqD qk.1 tap) rfl
          rw [hm] at hm'
          obtain rfl := Option.some.inj hm'
          exact hle
        · exact ih3 qk hqk' he m hm
      · intro m0 h0
        have hdlt : sqD pj.1 tap < m0 := by
          have hd : decide (sqD pj.1 tap < m0) = true := by
            simpa [better1, h0] using hbetter
          exact of_decide_eq_true hd
        obtain ⟨m, hm, hle⟩ := ih4 (sqD pj.1 tap) rfl
        exact ⟨m, hm, Qv.le_trans hwhd hle (Qv.le_of_lt hdlt)⟩
      · intro i0 h0
        exact ih5 pj.2 rfl
      · intro h0
        exact ih5 pj.2 rfl

/-- A PLAYING state with no eligible tower: two towers out of ammo, the
third destroyed. -/
def c5S : GameS :=
  { initGame 0 initState with
    towers := [⟨0, 0, 0, 20, true⟩, ⟨0, 0, 0, 40, true⟩, ⟨0, 0, 20, 20, false⟩] }

/-- C5: for a tap processed while PLAYING, if no tower is alive with ammo
the tap is a no-op (zero interceptors, zero ammo change); otherwise some
tower index `j` that is alive with ammo and whose (squared) distance to the
tap is minimal among all eligible towers fires exactly one interceptor at
fixed speed 15 aimed at the tap point, and only that tower's ammo drops by
exactly one. -/
theorem c5_nearest_eligible_tower_fires
    (w h cx cy : Qv) (rng : Nat → Qv) (s : GameS)
    (hw : w.Wf) (hh : h.Wf) (hcx : cx.Wf) (hcy : cy.Wf)
    (hs : s.state = GState.PLAYING) :
    ((∀ i ∈ ([0, 1, 2] : List Nat), eligT s.towers i = false) →
       handleInput w h cx cy rng s = s) ∧
    ((∃ i ∈ ([0, 1, 2] : List Nat), eligT s.towers i = true) →
       ∃ j ∈ ([0, 1, 2] : List Nat), eligT s.towers j = true ∧
         (∀ k ∈ ([0, 1, 2] : List Nat), eligT s.towers k = true →
            sqD ((towerPositions w h).getD j noPt) ⟨cx, cy⟩ ≤
              sqD ((towerPositions w h).getD k noPt) ⟨cx, cy⟩) ∧
         handleInput w h cx cy rng s =
           { s with
             interceptors := s.interceptors ++
               [⟨rng 2, ((towerPositions w h).getD j noPt).x,
                 ((towerPositions w h).getD j noPt).y,
                 rng 0 * 15, rng 1 * 15, colPrimary, false, ⟨cx, cy⟩, 15, [], j⟩],
             towers := listModify s.towers j fun t => { t with ammo := t.ammo - 1 } }) := by
  have hwl : ∀ pj ∈ (towerPositions w h).zip ([0, 1, 2] : List Nat),
      (sqD pj.1 ⟨cx, cy⟩).Wf := by
    intro pj hpj
    have hz : (towerPositions w h).zip ([0, 1, 2] : List Nat) =
        [(⟨w * (1 / 10), h - 60⟩, 0), (⟨w * (5 / 10), h - 60⟩, 1),
         (⟨w * (9 / 10), h - 60⟩, 2)] := rfl
    rw [hz] at hpj
    simp only [List.mem_cons, List.not_mem_nil, or_false] at hpj
    rcases hpj with rfl | rfl | rfl <;>
      exact wf_sqD (Qv.wf_mul hw (by decide)) (Qv.wf_sub hh (by decide)) hcx hcy
  obtain ⟨k1, k2, k3, k4, k5, k6⟩ :=
    sel_fold_main s.towers ⟨cx, cy⟩ ((towerPositions w h).zip ([0, 1, 2] : List Nat))
      (none, none) hwl (fun m hm => Option.noConfusion hm)
      (fun m hm => Option.noConfusion hm)
  constructor
  · intro hnone
    have hseln : (((towerPositions w h).zip ([0, 1, 2] : List Nat)).foldl
        (selStep s.towers ⟨cx, cy⟩) (none, none)).2 = none := by
      rcases k2 with hres | ⟨pj, hpj, he, _⟩
      · rw [hres]
      · obtain ⟨hmem, _⟩ := mem_towerZip w h pj hpj
        rw [hnone pj.2 hmem] at he
        exact Bool.noConfusion he
    simp only [handleInput]
    rw [if_neg (show ¬(s.state ≠ GState.PLAYING) from by simp [hs]), hseln]
  · rintro ⟨i, hi, helig⟩
    obtain ⟨j0, hj0⟩ :=
      k6 ⟨((towerPositions w h).getD i noPt, i), towerZip_mem w h i hi, helig⟩
    rcases k2 with hres | ⟨pj, hpj, he, hr⟩
    · rw [hres] at hj0
      exact Option.noConfusion hj0
    · obtain ⟨hmem2, hpfst⟩ := mem_towerZip w h pj hpj
      refine ⟨pj.2, hmem2, he, ?_, ?_⟩
      · intro k hk helk
        have hb := k3 ((towerPositions w h).getD k noPt, k) (towerZip_mem w h k hk)
          helk (sqD pj.1 ⟨cx, cy⟩) (by rw [hr])
        rw [hpfst] at hb
        exact hb
      · simp only [handleInput]
        rw [if_neg (show ¬(s.state ≠ GState.PLAYING) from by simp [hs]),
          show (((towerPositions w h).zip ([0, 1, 2] : List Nat)).foldl
            (selStep s.towers ⟨cx, cy⟩) (none, none)).2 = some pj.2 from by rw [hr]]

/-- Witness for C5's no-eligible-tower branch in the concrete state `c5S`. -/
theorem c5_witness :
    handleInput 800 600 100 100 (fun _ => 0) c5S = c5S :=
  (c5_nearest_eligible_tower_fires 800 600 100 100 (fun _ => 0) c5S
    (by decide) (by decide) (by decide) (by decide) rfl).1 (by decide)
